import Mathlib

/-!
Verification of the word-span matching infrastructure of `pyRegularExpression`.

The development shallowly embeds four finder families of the repository
(`adherence_compliance_finder.py`, `trial_registration_finder.py`,
`random_sequence_generation_finder.py`, `healthcare_setting_finder.py`).
Texts are `List Char` (Python strings are sequences of code points, and all
offsets in the source are code-point offsets).  The regular expressions of the
modules are embedded as a small deep-embedded pattern type `RE` whose evaluator
returns the list of candidate match lengths in exactly the preference order of
CPython's backtracking engine (alternatives left to right, greedy quantifiers
longest first, lazy quantifiers shortest first); the engine's chosen match is
the head of that list.  `finditer`, `search` and `fullmatch` are defined on top
of it following CPython's scanner semantics.
-/

set_option maxRecDepth 20000

/-- Python `\s` over the character set used by the library (ASCII whitespace;
the embedded texts contain no non-ASCII whitespace). -/
def isSpaceC (c : Char) : Bool :=
  c == ' ' || c == '\t' || c == '\n' || c == '\r' || c == '\x0b' || c == '\x0c'

/-- Python `\d` (ASCII digits; the patterns are applied to ASCII digit runs). -/
def isDigitC (c : Char) : Bool := '0' ≤ c && c ≤ '9'

/-- Python `\w` restricted to ASCII, which covers every character these
patterns are applied to in this development. -/
def isWordC (c : Char) : Bool :=
  ('a' ≤ c && c ≤ 'z') || ('A' ≤ c && c ≤ 'Z') || isDigitC c || c == '_'

/-- ASCII lower-casing, the case folding relevant to the `re.I` patterns of the
modules (their literals are ASCII). -/
def lowerC (c : Char) : Char :=
  if 'A' ≤ c && c ≤ 'Z' then Char.ofNat (c.toNat + 32) else c

/-- Case-insensitive "the first list is a prefix of the second". -/
def ciHas : List Char → List Char → Bool
  | [], _ => true
  | _ :: _, [] => false
  | a :: as, b :: bs => (lowerC a == lowerC b) && ciHas as bs

/-- Length of the maximal run of `f`-characters at the head of the list. -/
def clsRun (f : Char → Bool) : List Char → Nat
  | [] => 0
  | c :: cs => if f c then clsRun f cs + 1 else 0

/-- Python slice `t[a:b]` (for `a ≤ b`; both ends clamp to the text length). -/
def sliceL (t : List Char) (a b : Nat) : List Char := (t.drop a).take (b - a)

/-- Absolute difference on `Nat`, Python's `abs(x - y)` on non-negative ints. -/
def adist (a b : Nat) : Nat := if a ≤ b then b - a else a - b

/-- `isWordC` at an offset, `false` out of range.  Used for `\b`. -/
def wordAt (t : List Char) (i : Nat) : Bool :=
  match t[i]? with
  | some c => isWordC c
  | none => false

/-- `isWordC` just before an offset, `false` at offset 0. -/
def wordBefore (t : List Char) (i : Nat) : Bool :=
  if i = 0 then false else wordAt t (i - 1)

/-- Deep embedding of the fragment of Python regular expressions the four
modules use.  `lit` is a case-insensitive literal (the modules compile with
`re.I`; case-sensitive literals in this development are letter-free so the
distinction is immaterial).  `cls f lo hi lz` is a counted repetition of a
one-character class (`hi = none` meaning unbounded, `lz` selecting the lazy
variant).  `bnd` is `\b`, `bol`/`eol` are the `(?m)` line anchors. -/
inductive RE where
  | eps
  | lit (s : String)
  | one (f : Char → Bool)
  | cls (f : Char → Bool) (lo : Nat) (hi : Option Nat) (lz : Bool)
  | seq (a b : RE)
  | alt (a b : RE)
  | bnd
  | bol
  | eol

/-- Candidate consumed lengths of a pattern at a position, in CPython
backtracking preference order: the engine's match is the head. -/
def evalRE : RE → List Char → Nat → List Nat
  | .eps, _, _ => [0]
  | .lit s, t, i => if ciHas s.data (t.drop i) then [s.data.length] else []
  | .one f, t, i =>
      match t[i]? with
      | some c => if f c then [1] else []
      | none => []
  | .cls f lo hi lz, t, i =>
      let r := clsRun f (t.drop i)
      let h := min (hi.getD r) r
      if lz then List.range' lo (h + 1 - lo) else (List.range' lo (h + 1 - lo)).reverse
  | .seq a b, t, i => (evalRE a t i).flatMap fun k => (evalRE b t (i + k)).map fun m => k + m
  | .alt a b, t, i => evalRE a t i ++ evalRE b t i
  | .bnd, t, i => if wordAt t i != wordBefore t i then [0] else []
  | .bol, t, i => if i = 0 || t[i - 1]? == some '\n' then [0] else []
  | .eol, t, i => if i = t.length || t[i]? == some '\n' then [0] else []

/-- Right-nested sequence of a list of patterns. -/
def seqs (ps : List RE) : RE := ps.foldr RE.seq RE.eps

/-- Right-nested alternation of a list of patterns (tried in list order, like
Python's `|`). -/
def alts : List RE → RE
  | [] => RE.one fun _ => false
  | [p] => p
  | p :: ps => RE.alt p (alts ps)

/-- Greedy `(?:p)?`. -/
def optR (p : RE) : RE := RE.alt p RE.eps

/-- `\s+`. -/
def ws1 : RE := RE.cls isSpaceC 1 none false

/-- `\s*`. -/
def ws0 : RE := RE.cls isSpaceC 0 none false

/-- `\d{lo,hi}`, greedy. -/
def digitsR (lo hi : Nat) : RE := RE.cls isDigitC lo (some hi) false

/-- `\w+`, greedy. -/
def wordsR : RE := RE.cls isWordC 1 none false

/-- `re.Pattern.match` at a fixed position: the engine's chosen consumed
length, if any. -/
def matchAt (r : RE) (t : List Char) (i : Nat) : Option Nat := (evalRE r t i).head?

/-- `re.finditer` scanning from position `i`: at each position the leftmost
match wins; a non-empty match resumes at its end, an empty one a character
later (CPython scanner semantics).  Spans are `(start, end)` offsets.  The
scan advances by at least one position per step, so any `fuel` of at least
`t.length + 1 - i` yields the full unbounded scan (`finditerA_fuel`). -/
def finditerA (r : RE) (t : List Char) : Nat → Nat → List (Nat × Nat)
  | _, 0 => []
  | i, fuel + 1 =>
    if i ≤ t.length then
      match matchAt r t i with
      | some k =>
          if k = 0 then (i, i) :: finditerA r t (i + 1) fuel
          else (i, i + k) :: finditerA r t (i + k) fuel
      | none => if i < t.length then finditerA r t (i + 1) fuel else []
    else []

/-- `re.finditer` over the whole text. -/
def finditer (r : RE) (t : List Char) : List (Nat × Nat) :=
  finditerA r t 0 (t.length + 1)

/-- Truthiness of `re.search`: does the pattern match anywhere? -/
def searchB (r : RE) (t : List Char) : Bool :=
  (List.range (t.length + 1)).any fun i => !(evalRE r t i).isEmpty

/-- Truthiness of `re.fullmatch`: can the pattern consume the entire text? -/
def fullmatchB (r : RE) (t : List Char) : Bool :=
  (evalRE r t 0).any fun k => k == t.length

/-- `TOKEN_RE = re.compile(r"\S+")`, shared by all modules. -/
def TOKEN_RE : RE := RE.cls (fun c => !isSpaceC c) 1 none false

/-- `_token_spans(text)`: character spans of the whitespace-delimited tokens,
shared verbatim by all four modules. -/
def tokenSpans (t : List Char) : List (Nat × Nat) := finditer TOKEN_RE t

/-- Index of the first element satisfying `p`, counting from `n`. -/
def firstIdxA (p : α → Bool) : List α → Nat → Option Nat
  | [], _ => none
  | x :: xs, n => if p x then some n else firstIdxA p xs (n + 1)

/-- Index of the last element satisfying `p`, counting from `n` (the module's
`next(... for ... in reversed(list(enumerate(spans))) ...)`). -/
def lastIdxA (p : α → Bool) : List α → Nat → Option Nat
  | [], _ => none
  | x :: xs, n =>
      match lastIdxA p xs (n + 1) with
      | some j => some j
      | none => if p x then some n else none

/-- `_char_to_word(span, spans)`, shared verbatim by all four modules:
`w_s` is the first token span containing the start offset, `w_e` the last
token span `(a, b)` with `a < e ≤ b`.  Python raises `StopIteration` when
either `next` is exhausted; that case is `none` here. -/
def charToWord (span : Nat × Nat) (spans : List (Nat × Nat)) : Option (Nat × Nat) :=
  match firstIdxA (fun ab => ab.1 ≤ span.1 && span.1 < ab.2) spans 0,
        lastIdxA (fun ab => ab.1 < span.2 && span.2 ≤ ab.2) spans 0 with
  | some ws, some we => some (ws, we)
  | _, _ => none

/-- A returned finding `(start_word_idx, end_word_idx, snippet)`. -/
abbrev Finding := Nat × Nat × List Char

/-- Pairs each element with its index, starting at `n` (Python `enumerate`). -/
def idxFrom : List α → Nat → List (Nat × α)
  | [], _ => []
  | x :: xs, n => (n, x) :: idxFrom xs (n + 1)

/-- Iteration of a CPython `set` of small ints built by successive insertion,
modelled as first-occurrence deduplication.  On every set arising in this
development the insertion order is already ascending, where CPython's
iteration order for such sets coincides with this list. -/
def pyDedup (l : List Nat) : List Nat := go l []
where
  go : List Nat → List Nat → List Nat
    | [], _ => []
    | x :: xs, seen => if seen.contains x then go xs seen else x :: go xs (x :: seen)

/-- First offset `j ≥ s` at which `"\n\n"` occurs (`text.find("\n\n", s)`,
with Python's `-1` result rendered as `none`). -/
def findNlNl (t : List Char) (s : Nat) : Option Nat := go s (t.length - s)
where
  go : Nat → Nat → Option Nat
    | _, 0 => none
    | j, fuel + 1 =>
      if j < t.length then
        if t[j]? == some '\n' && t[j + 1]? == some '\n' then some j
        else go (j + 1) fuel
      else none

/-! ## `adherence_compliance_finder.py` -/

namespace adherence_compliance_finder

/-- `ADH_CUE_RE`: cue vocabulary of the adherence/compliance family. -/
def ADH_CUE_RE : RE :=
  seqs [.bnd,
    alts [.lit "adherence", .lit "compliance",
          seqs [.lit "medication", ws1, .lit "possession", ws1, .lit "ratio"],
          .lit "mpr",
          seqs [.lit "proportion", ws1, .lit "of", ws1, .lit "days", ws1, .lit "covered"],
          .lit "pdc",
          seqs [.lit "pill", ws1, .lit "count"]],
    .bnd]

/-- `VERB_RE`: analytic verbs. -/
def VERB_RE : RE :=
  seqs [.bnd,
    alts [.lit "defined", .lit "calculated", .lit "measured", .lit "assessed",
          .lit "evaluated", .lit "determined", .lit "computed"],
    .bnd]

/-- `THRESH_RE`: numeric threshold / metric keyword. -/
def THRESH_RE : RE :=
  seqs [optR (.one fun c => c == '≥' || c == '>'), ws0,
        RE.cls isDigitC 1 none false,
        optR (seqs [.lit ".", RE.cls isDigitC 1 none false]), ws0,
        optR (alts [.lit "%", .lit "percent", .lit "proportion",
                    .lit "ratio", .lit "pdc", .lit "mpr"])]

/-- `HEAD_ADH_RE`: adherence/compliance heading line. -/
def HEAD_ADH_RE : RE :=
  seqs [.bol,
        alts [.lit "adherence", .lit "compliance",
              seqs [.lit "medication", ws1, .lit "adherence"]],
        ws0, optR (.one fun c => c == ':' || c == '-'), ws0, .eol]

/-- `TIGHT_TEMPLATE_RE`: the v5 canonical template. -/
def TIGHT_TEMPLATE_RE : RE :=
  seqs [.lit "adherence", ws1, .lit "was", ws1, .lit "defined",
        RE.cls (fun c => !(c == '.' || c == '\n')) 0 (some 60) false,
        alts [.lit "pdc", .lit "mpr"],
        RE.cls (fun c => !(c == '≥' || c == '>')) 0 none false,
        .one (fun c => c == '≥' || c == '>'), ws0,
        optR (.lit "0"), optR (.lit "."),
        alts [.lit "7", .lit "8", .lit "80"]]

/-- `TRAP_RE`: false-positive contexts. -/
def TRAP_RE : RE :=
  RE.alt (seqs [.bnd, .lit "adherence", ws1, .lit "to", ws1, .lit "guidelines"])
         (seqs [.lit "baseline", ws1, .lit "adherence", .bnd])

/-- The module's `_collect`: scan each pattern, drop candidates whose ±40-char
context window matches `TRAP_RE`, map the rest to findings.  The `none` branch
of `_char_to_word` is where Python would raise `StopIteration`; it is
unreachable for the patterns passed here, whose matches start and end on
non-whitespace characters. -/
def collect (patterns : List RE) (t : List Char) : List Finding :=
  let spans := tokenSpans t
  patterns.flatMap fun patt =>
    (finditer patt t).flatMap fun m =>
      let context := sliceL t (m.1 - 40) (m.2 + 40)
      if searchB TRAP_RE context then []
      else
        match charToWord (m.1, m.2) spans with
        | some (ws, we) => [(ws, we, sliceL t m.1 m.2)]
        | none => []

/-- Tier 1 – any adherence cue, trap-filtered. -/
def find_adherence_compliance_v1 (t : List Char) : List Finding :=
  collect [ADH_CUE_RE] t

/-- Tier 2 – cue token with an analytic-verb token within ±`window` tokens.
`cue_idx`/`verb_idx` are Python sets of token indices built from `enumerate`;
their elements are distinct and ascending, so plain lists model them. -/
def find_adherence_compliance_v2 (t : List Char) (window : Nat) : List Finding :=
  let spans := tokenSpans t
  let toks := idxFrom (spans.map fun ab => sliceL t ab.1 ab.2) 0
  let cue_idx := (toks.filter fun it => fullmatchB ADH_CUE_RE it.2).map (·.1)
  let verb_idx := (toks.filter fun it => fullmatchB VERB_RE it.2).map (·.1)
  cue_idx.flatMap fun c =>
    if verb_idx.any fun v => adist v c ≤ window then
      match spans[c]? with
      | some sp =>
          match charToWord sp spans with
          | some (ws, we) => [(ws, we, sliceL t sp.1 sp.2)]
          | none => []
      | none => []
    else []

/-- Tier 3 – cue inside an adherence heading block of `block_chars` chars. -/
def find_adherence_compliance_v3 (t : List Char) (block_chars : Nat) : List Finding :=
  let spans := tokenSpans t
  let blocks := (finditer HEAD_ADH_RE t).map fun h => (h.2, min t.length (h.2 + block_chars))
  (finditer ADH_CUE_RE t).flatMap fun m =>
    if blocks.any fun se => se.1 ≤ m.1 && m.1 < se.2 then
      match charToWord (m.1, m.2) spans with
      | some (ws, we) => [(ws, we, sliceL t m.1 m.2)]
      | none => []
    else []

/-- Tier 4 – v2 findings with a threshold token within ±`window` tokens of the
finding's word span. -/
def find_adherence_compliance_v4 (t : List Char) (window : Nat) : List Finding :=
  let spans := tokenSpans t
  let toks := idxFrom (spans.map fun ab => sliceL t ab.1 ab.2) 0
  let thr_idx := (toks.filter fun it => fullmatchB THRESH_RE it.2).map (·.1)
  (find_adherence_compliance_v2 t window).filter fun f =>
    thr_idx.any fun k => f.1 - window ≤ k && k ≤ f.2.1 + window

/-- Tier 5 – tight template, trap-filtered. -/
def find_adherence_compliance_v5 (t : List Char) : List Finding :=
  collect [TIGHT_TEMPLATE_RE] t

end adherence_compliance_finder

/-! ## `trial_registration_finder.py` -/

namespace trial_registration_finder

/-- `REGISTRY_ID_RE`: registry identifier patterns. -/
def REGISTRY_ID_RE : RE :=
  seqs [.bnd,
    alts [seqs [.lit "NCT", digitsR 8 8],
          seqs [.lit "ISRCTN", digitsR 6 8],
          seqs [.lit "EudraCT", ws0, digitsR 4 4, .lit "-", digitsR 6 6, .lit "-", digitsR 2 2],
          seqs [.lit "ChiCTR", optR (seqs [.lit "-", wordsR])],
          seqs [.lit "ANZCTR", ws0, wordsR],
          seqs [.lit "JPRN-", wordsR],
          .lit "ClinicalTrials.gov", .lit "ISRCTN", .lit "EudraCT", .lit "ChiCTR"],
    .bnd]

/-- `REG_CUE_RE`: registration cue phrases. -/
def REG_CUE_RE : RE :=
  seqs [.bnd,
    alts [seqs [.lit "trial", ws1, .lit "registration"],
          seqs [.lit "study", ws1, .lit "registered"],
          seqs [.lit "registered", ws1, alts [.lit "at", .lit "in", .lit "with", .lit "on"]],
          seqs [.lit "recorded", ws1, .lit "as"],
          seqs [.lit "registration", ws1, .lit "was", ws1, .lit "recorded"],
          seqs [.lit "prospectively", ws1, .lit "registered"],
          .lit "ChiCTR", .lit "ClinicalTrials.gov", .lit "EudraCT", .lit "ISRCTN"],
    .bnd]

/-- `VERB_RE`: registration verbs. -/
def VERB_RE : RE :=
  seqs [.bnd,
    alts [.lit "registered", .lit "recorded", .lit "submitted",
          seqs [.lit "prospectively", ws1, .lit "registered"]],
    .bnd]

/-- `HEAD_REG_RE`: registration heading line. -/
def HEAD_REG_RE : RE :=
  seqs [.bol,
        alts [seqs [.lit "trial", ws1, .lit "registration"], .lit "registration"],
        ws0, optR (.one fun c => c == ':' || c == '-'), ws0, .eol]

/-- `TIGHT_TEMPLATE_RE`: the v5 canonical template (its `[^\n]{0,60}?` is a
lazy bounded repetition). -/
def TIGHT_TEMPLATE_RE : RE :=
  seqs [optR (seqs [.lit "this", ws1]),
        .lit "trial", ws1, .lit "was", ws1, .lit "prospectively", ws1, .lit "registered",
        optR (seqs [ws1, .lit "at", ws1, wordsR]),
        RE.cls (fun c => !(c == '\n')) 0 (some 60) true,
        alts [seqs [.lit "NCT", digitsR 8 8],
              seqs [.lit "ISRCTN", digitsR 6 8],
              seqs [.lit "EudraCT", ws0, digitsR 4 4, .lit "-", digitsR 6 6, .lit "-", digitsR 2 2],
              seqs [.lit "ChiCTR-", wordsR]]]

/-- `TRAP_RE`: false-positive contexts. -/
def TRAP_RE : RE :=
  alts [seqs [.bnd, .lit "IRB", ws1],
        seqs [.lit "ethical", ws1, .lit "approval"],
        seqs [.lit "registry", ws1, .lit "of", ws1, .lit "deeds", .bnd]]

/-- The module's `_collect` (also inlined verbatim in `find_trial_registration_v1`):
±40-char trap window, then `_char_to_word`.  The `none` branch is where Python
would raise `StopIteration`, unreachable for the patterns passed here. -/
def collect (patterns : List RE) (t : List Char) : List Finding :=
  let spans := tokenSpans t
  patterns.flatMap fun patt =>
    (finditer patt t).flatMap fun m =>
      let context := sliceL t (m.1 - 40) (m.2 + 40)
      if searchB TRAP_RE context then []
      else
        match charToWord (m.1, m.2) spans with
        | some (ws, we) => [(ws, we, sliceL t m.1 m.2)]
        | none => []

/-- Tier 1 – any registration cue or registry identifier, trap-filtered.  The
source repeats `_collect`'s body inline over `[REG_CUE_RE, REGISTRY_ID_RE]`. -/
def find_trial_registration_v1 (t : List Char) : List Finding :=
  collect [REG_CUE_RE, REGISTRY_ID_RE] t

/-- Tier 2 – cue/identifier start-token with a registration-verb token within
±`window` tokens.  `cue_idx` and `verb_idx` are Python sets of token indices;
`pyDedup` models their iteration (insertion order is ascending here). -/
def find_trial_registration_v2 (t : List Char) (window : Nat) : List Finding :=
  let spans := tokenSpans t
  let cue_idx := pyDedup
    (([REG_CUE_RE, REGISTRY_ID_RE].flatMap fun patt =>
        (finditer patt t).flatMap fun m =>
          match charToWord (m.1, m.2) spans with
          | some (ws, _) => [ws]
          | none => []))
  let verb_idx := pyDedup
    ((finditer VERB_RE t).flatMap fun m =>
        match charToWord (m.1, m.2) spans with
        | some (ws, _) => [ws]
        | none => [])
  cue_idx.flatMap fun c =>
    if verb_idx.any fun v => adist v c ≤ window then
      match spans[c]? with
      | some sp =>
          match charToWord sp spans with
          | some (ws, we) => [(ws, we, sliceL t sp.1 sp.2)]
          | none => []
      | none => []
    else []

/-- Tier 3 – cue/identifier inside a registration heading block. -/
def find_trial_registration_v3 (t : List Char) (block_chars : Nat) : List Finding :=
  let spans := tokenSpans t
  let blocks := (finditer HEAD_REG_RE t).map fun h => (h.2, min t.length (h.2 + block_chars))
  [REG_CUE_RE, REGISTRY_ID_RE].flatMap fun patt =>
    (finditer patt t).flatMap fun m =>
      if blocks.any fun se => se.1 ≤ m.1 && m.1 < se.2 then
        match charToWord (m.1, m.2) spans with
        | some (ws, we) => [(ws, we, sliceL t m.1 m.2)]
        | none => []
      else []

/-- Tier 4 – v2 findings with a token that `REGISTRY_ID_RE` fullmatches within
±`window` tokens of the finding's word span. -/
def find_trial_registration_v4 (t : List Char) (window : Nat) : List Finding :=
  let spans := tokenSpans t
  let toks := idxFrom (spans.map fun ab => sliceL t ab.1 ab.2) 0
  let id_idx := (toks.filter fun it => fullmatchB REGISTRY_ID_RE it.2).map (·.1)
  (find_trial_registration_v2 t window).filter fun f =>
    id_idx.any fun k => f.1 - window ≤ k && k ≤ f.2.1 + window

/-- Tier 5 – tight template, trap-filtered. -/
def find_trial_registration_v5 (t : List Char) : List Finding :=
  collect [TIGHT_TEMPLATE_RE] t

end trial_registration_finder

/-! ## `random_sequence_generation_finder.py` -/

namespace random_sequence_generation_finder

/-- One character of the class `[- ]`. -/
def dashSpace : RE := .one fun c => c == '-' || c == ' '

/-- One character of the class `[sz]` under `re.I`. -/
def szChar : RE := .one fun c => c == 's' || c == 'z' || c == 'S' || c == 'Z'

/-- `GEN_CUE_RE`: sequence-generation method cues. -/
def GEN_CUE_RE : RE :=
  seqs [.bnd,
    alts [seqs [.lit "computer", optR dashSpace, .lit "generated"],
          .lit "computerised", .lit "computerized",
          seqs [.lit "random", ws1, .lit "number", ws1, .lit "table"],
          seqs [.lit "coin", ws1, .lit "toss"],
          seqs [.lit "shuffled", ws1, optR (seqs [.lit "opaque", ws1]),
                .lit "envelope", optR (.lit "s")],
          seqs [.lit "sealed", ws1, .lit "opaque", ws1, .lit "envelope", optR (.lit "s")],
          seqs [.lit "permuted", ws1, .lit "block"],
          seqs [.lit "block", ws1, .lit "randomi", szChar, .lit "ation"],
          seqs [.lit "stratified", ws1, .lit "randomi", szChar, .lit "ation"]],
    .bnd]

/-- `RAND_KEY_RE`: randomisation keywords. -/
def RAND_KEY_RE : RE :=
  seqs [.bnd,
    alts [seqs [.lit "randomi", szChar, .lit "ation"],
          seqs [.lit "randomi", szChar, .lit "ed"],
          .lit "allocation", .lit "sequence", .lit "list"],
    .bnd]

/-- `METHOD_MOD_RE`: method modifiers (`block|blocks?|permuted|stratified`). -/
def METHOD_MOD_RE : RE :=
  seqs [.bnd,
    alts [.lit "block", seqs [.lit "block", optR (.lit "s")],
          .lit "permuted", .lit "stratified"],
    .bnd]

/-- `HEADING_RAND_RE`: randomisation heading line. -/
def HEADING_RAND_RE : RE :=
  seqs [.bol,
        alts [seqs [.lit "randomi", szChar, .lit "ation"],
              seqs [.lit "sequence", ws1, .lit "generation"],
              seqs [.lit "allocation", ws1, .lit "sequence"]],
        ws0, optR (.one fun c => c == ':' || c == '-'), ws0, .eol]

/-- `TRAP_RE`: false-positive contexts. -/
def TRAP_RE : RE :=
  alts [seqs [.bnd, .lit "random", optR (.lit "ly"), ws1,
              alts [.lit "assigned", .lit "selected"]],
        seqs [.lit "random", ws1, .lit "sampling"],
        seqs [.lit "random", ws1, .lit "effect", optR (.lit "s"), .bnd]]

/-- `TIGHT_TEMPLATE_RE`: the v5 canonical template; its `.*?` repetitions are
lazy and, without `re.S`, do not cross newlines. -/
def TIGHT_TEMPLATE_RE : RE :=
  seqs [.lit "allocation", ws1, .lit "sequence",
        RE.cls (fun c => !(c == '\n')) 0 none true,
        .lit "computer", optR dashSpace, .lit "generated",
        RE.cls (fun c => !(c == '\n')) 0 none true,
        .lit "block", ws1, .lit "randomi", szChar, .lit "ation"]

/-- The module's `_collect`: ±25-char trap window, then `_char_to_word`.  The
`none` branch is Python's `StopIteration`, unreachable for the patterns used. -/
def collect (patterns : List RE) (t : List Char) : List Finding :=
  let spans := tokenSpans t
  patterns.flatMap fun patt =>
    (finditer patt t).flatMap fun m =>
      if searchB TRAP_RE (sliceL t (m.1 - 25) (m.2 + 25)) then []
      else
        match charToWord (m.1, m.2) spans with
        | some (ws, we) => [(ws, we, sliceL t m.1 m.2)]
        | none => []

/-- Tier 1 – any generation cue, trap-filtered. -/
def find_random_sequence_generation_v1 (t : List Char) : List Finding :=
  collect [GEN_CUE_RE] t

/-- Tier 2 – generation cue with a randomisation keyword nearby; here `window`
is a **character** distance, compared strictly (`<`) between one match's raw
start and the other's raw end, and the first close keyword ends the scan. -/
def find_random_sequence_generation_v2 (t : List Char) (window : Nat) : List Finding :=
  let spans := tokenSpans t
  let key_matches := finditer RAND_KEY_RE t
  (finditer GEN_CUE_RE t).flatMap fun g =>
    if searchB TRAP_RE (sliceL t (g.1 - 25) (g.2 + 25)) then []
    else if key_matches.any fun k => adist g.1 k.2 < window || adist k.1 g.2 < window then
      match charToWord (g.1, g.2) spans with
      | some (ws, we) => [(ws, we, sliceL t g.1 g.2)]
      | none => []
    else []

/-- The v3 heading blocks: each starts right after a heading match and ends
after exactly `block_chars` characters (clamped to the text end only) — this
family has **no** blank-line boundary. -/
def rsgBlocks (t : List Char) (block_chars : Nat) : List (Nat × Nat) :=
  (finditer HEADING_RAND_RE t).map fun h => (h.2, min t.length (h.2 + block_chars))

/-- Tier 3 – generation cue inside a randomisation heading block; the block is
bounded only by `block_chars` (and the end of the text), with no blank-line
boundary. -/
def find_random_sequence_generation_v3 (t : List Char) (block_chars : Nat) : List Finding :=
  let spans := tokenSpans t
  let blocks := rsgBlocks t block_chars
  (finditer GEN_CUE_RE t).flatMap fun m =>
    if blocks.any fun se => se.1 ≤ m.1 && m.1 < se.2 then
      match charToWord (m.1, m.2) spans with
      | some (ws, we) => [(ws, we, sliceL t m.1 m.2)]
      | none => []
    else []

/-- Tier 4 – v2 findings (computed with v2's **default** window 80) with a
method-modifier match within a strict character distance of the finding's
token-span edges; the `spans[w_s]`/`spans[w_e]` lookups cannot fail in Python
and the `none` fallbacks here are unreachable. -/
def find_random_sequence_generation_v4 (t : List Char) (window : Nat) : List Finding :=
  let spans := tokenSpans t
  let mod_matches := finditer METHOD_MOD_RE t
  (find_random_sequence_generation_v2 t 80).flatMap fun f =>
    match spans[f.1]?, spans[f.2.1]? with
    | some sps, some spe =>
        if mod_matches.any fun m => adist sps.1 m.2 < window || adist m.1 spe.2 < window then
          [f]
        else []
    | _, _ => []

/-- Tier 5 – tight template, trap-filtered. -/
def find_random_sequence_generation_v5 (t : List Char) : List Finding :=
  collect [TIGHT_TEMPLATE_RE] t

end random_sequence_generation_finder

/-! ## `healthcare_setting_finder.py` -/

namespace healthcare_setting_finder

/-- `unicodedata.normalize("NFC", text)`, embedded as the identity function:
NFC is the identity on every text this development evaluates on (no combining
sequences or compatibility singletons occur), and no theorem below depends on
its action elsewhere. -/
def nfc (t : List Char) : List Char := t

/-- `normalize_text(text)`: NFC normalisation followed by replacing the
non-breaking hyphen U+2011 with an ASCII hyphen. -/
def normalize_text (t : List Char) : List Char :=
  (nfc t).map fun c => if c == '‑' then '-' else c

/-- `FACILITY_RE`: facility/setting terms. -/
def FACILITY_RE : RE :=
  seqs [.bnd,
    alts [.lit "inpatient", .lit "outpatient", .lit "ambulatory",
          seqs [.lit "primary", ws1, .lit "care"],
          seqs [.lit "secondary", ws1, .lit "care"],
          seqs [.lit "tertiary", ws1, .lit "care"],
          seqs [.lit "emergency", ws1, .lit "department"],
          .lit "ed", .lit "er", .lit "icu",
          seqs [.lit "intensive", ws1, .lit "care", optR (seqs [ws1, .lit "unit"])],
          .lit "clinic", .lit "clinics",
          seqs [.lit "hospital", optR (.lit "s"), optR (seqs [ws1, .lit "based"])],
          .lit "ward",
          seqs [.lit "community", ws1, .lit "pharmacy"],
          .lit "settings"],
    .bnd]

/-- `CONTEXT_RE`: context words (searched inside single tokens by v2). -/
def CONTEXT_RE : RE :=
  seqs [.bnd,
    alts [.lit "setting", .lit "settings", .lit "clinic", .lit "care", .lit "unit",
          .lit "hospital", .lit "environment", .lit "data",
          seqs [.lit "patient", optR (.lit "s")],
          .lit "ward", .lit "healthcare", .lit "inpatient", .lit "outpatient",
          .lit "facility", .lit "medical", .lit "hospitalization", .lit "treatment",
          .lit "caregiver",
          seqs [.lit "medical", .one isSpaceC, .lit "care"]],
    .bnd]

/-- `QUALIFIER_RE`: setting qualifiers (searched inside single tokens by v4). -/
def QUALIFIER_RE : RE :=
  seqs [.bnd,
    alts [.lit "primary", .lit "secondary", .lit "tertiary", .lit "academic",
          .lit "community", .lit "teaching", .lit "urban", .lit "rural",
          .lit "outpatient", .lit "ambulatory", .lit "regional", .lit "suburban",
          .lit "specialist", .lit "private", .lit "public", .lit "emergency"],
    .bnd]

/-- `HEADING_SET_RE`: setting heading; unlike the other families it has no
end-of-line anchor. -/
def HEADING_SET_RE : RE :=
  seqs [.bol,
        alts [.lit "setting",
              seqs [.lit "healthcare", ws1, .lit "setting"],
              seqs [.lit "study", ws1, .lit "setting"],
              seqs [.lit "study", ws1, .lit "design"],
              seqs [.lit "research", ws1, .lit "setting"],
              seqs [.lit "care", ws1, .lit "setting"],
              seqs [.lit "clinical", ws1, .lit "setting"],
              seqs [.lit "service", ws1, .lit "setting"]],
        ws0, optR (.one fun c => c == ':' || c == '-' || c == '.'), ws0]

/-- `GENERIC_TRAP_RE`. -/
def GENERIC_TRAP_RE : RE :=
  RE.alt (seqs [.lit "real", optR (.one fun c => c == '-' || c == ' '),
                .lit "world", ws1, .lit "setting"])
         (seqs [.lit "setting", ws1, .lit "of", ws1, .lit "care"])

/-- `TIGHT_TEMPLATE_RE`: the v5 template.  Its middle repetition is the raw
class `[^\.\\n]{0,80}`, which under `re.I` excludes the dot, the backslash and
the letter n/N (not the newline). -/
def TIGHT_TEMPLATE_RE : RE :=
  seqs [alts [seqs [alts [.lit "conducted", .lit "performed",
                          seqs [.lit "carried", ws1, .lit "out"]],
                    ws1, .lit "in"],
              seqs [.lit "admitted", ws1, .lit "to"],
              seqs [.lit "data", ws1,
                    optR (seqs [.lit "were", ws1, .lit "extracted", ws1]),
                    .lit "from"],
              seqs [.lit "recruited", ws1, alts [.lit "from", .lit "in", .lit "at"]]],
        ws1,
        RE.cls (fun c => !(c == '.' || c == '\\' || c == 'n' || c == 'N')) 0 (some 80) false,
        alts [.lit "inpatient", .lit "outpatient",
              seqs [.lit "primary", ws1, .lit "care"],
              .lit "icu", .lit "clinic", .lit "hospital",
              seqs [.lit "emergency", ws1, .lit "department"]],
        .bnd]

/-- The module's `_collect`: unlike the other families, the trap is searched
inside the matched text itself (`m.group(0)`), not a context window. -/
def collect (patterns : List RE) (t : List Char) : List Finding :=
  let tok_spans := tokenSpans t
  patterns.flatMap fun patt =>
    (finditer patt t).flatMap fun m =>
      if searchB GENERIC_TRAP_RE (sliceL t m.1 m.2) then []
      else
        match charToWord (m.1, m.2) tok_spans with
        | some (ws, we) => [(ws, we, sliceL t m.1 m.2)]
        | none => []

/-- Tier 1 – any facility term, on the normalised text. -/
def find_healthcare_setting_v1 (t : List Char) : List Finding :=
  collect [FACILITY_RE] (normalize_text t)

/-- Tier 2 – facility term with a context-word token within ±`window` tokens
of the facility term's word span, on the normalised text.  The source's test
is `any(c for c in ctx_idx if w_s - window <= c <= w_e + window)`: the
generator yields the in-window *indices* themselves and `any` tests them for
truthiness, so a context token at index 0 alone never satisfies it — hence
the extra `c ≠ 0` conjunct. -/
def find_healthcare_setting_v2 (t : List Char) (window : Nat) : List Finding :=
  let t := normalize_text t
  let tok_spans := tokenSpans t
  let toks := idxFrom (tok_spans.map fun ab => sliceL t ab.1 ab.2) 0
  let ctx_idx := (toks.filter fun it => searchB CONTEXT_RE it.2).map (·.1)
  (finditer FACILITY_RE t).flatMap fun m =>
    match charToWord (m.1, m.2) tok_spans with
    | some (ws, we) =>
        if ctx_idx.any fun c => (ws - window ≤ c && c ≤ we + window) && c ≠ 0 then
          [(ws, we, sliceL t m.1 m.2)]
        else []
    | none => []

/-- The v3 heading blocks: each starts right after a heading match and ends at
the next `"\n\n"` when `text.find` locates one within `block_chars` of the
start, else after exactly `block_chars` characters. -/
def hcBlocks (t : List Char) (block_chars : Nat) : List (Nat × Nat) :=
  (finditer HEADING_SET_RE t).map fun h =>
    match findNlNl t h.2 with
    | some nxt => if nxt - h.2 ≤ block_chars then (h.2, nxt) else (h.2, h.2 + block_chars)
    | none => (h.2, h.2 + block_chars)

/-- Tier 3 – facility term inside a setting heading block; the block ends at
the next blank line when that falls within `block_chars`, else after exactly
`block_chars` characters, on the normalised text. -/
def find_healthcare_setting_v3 (t : List Char) (block_chars : Nat) : List Finding :=
  let t := normalize_text t
  let tok_spans := tokenSpans t
  let blocks := hcBlocks t block_chars
  (finditer FACILITY_RE t).flatMap fun m =>
    if blocks.any fun se => se.1 ≤ m.1 && m.1 < se.2 then
      match charToWord (m.1, m.2) tok_spans with
      | some (ws, we) => [(ws, we, sliceL t m.1 m.2)]
      | none => []
    else []

/-- Tier 4 – v2 findings with a qualifier token within ±`window` tokens of the
finding's word span, on the normalised text.  The source's test is
`any(q for q in qual_idx if w_s - window <= q <= w_e + window)`, with the same
index-truthiness semantics as v2: a qualifier token at index 0 alone never
retains a finding — hence the extra `q ≠ 0` conjunct. -/
def find_healthcare_setting_v4 (t : List Char) (window : Nat) : List Finding :=
  let t := normalize_text t
  let tok_spans := tokenSpans t
  let toks := idxFrom (tok_spans.map fun ab => sliceL t ab.1 ab.2) 0
  let qual_idx := (toks.filter fun it => searchB QUALIFIER_RE it.2).map (·.1)
  (find_healthcare_setting_v2 t window).filter fun f =>
    qual_idx.any fun q => (f.1 - window ≤ q && q ≤ f.2.1 + window) && q ≠ 0

/-- Tier 5 – tight template, trap-filtered, on the normalised text. -/
def find_healthcare_setting_v5 (t : List Char) : List Finding :=
  collect [TIGHT_TEMPLATE_RE] (normalize_text t)

end healthcare_setting_finder

/-! ## Derived notions used by the statements -/

/-- Conservative "every match is non-empty" check on a pattern: when `posB r`
holds, every candidate length of `evalRE r` is positive (`posB_pos`). -/
def posB : RE → Bool
  | .eps => false
  | .lit s => !s.data.isEmpty
  | .one _ => true
  | .cls _ lo _ _ => decide (0 < lo)
  | .seq a b => posB a || posB b
  | .alt a b => posB a && posB b
  | .bnd => false
  | .bol => false
  | .eol => false

/-- The Finding invariant of the spec, relative to the text the module actually
matched against: indices form a span that is valid for that text's token
sequence, and the snippet is a non-empty substring of that text. -/
def ValidOn (out : List Finding) (t : List Char) : Prop :=
  ∀ f ∈ out, f.1 ≤ f.2.1 ∧ f.2.1 < (tokenSpans t).length ∧ f.2.2 ≠ [] ∧ f.2.2 <:+: t

/-- A blank-line (`"\n\n"`) boundary starting at offset `j`. -/
def blankAtB (t : List Char) (j : Nat) : Bool :=
  t[j]? == some '\n' && t[j + 1]? == some '\n'

/-! ## Concrete texts used by the claims -/

/-- Spec §8's canonical adherence template sentence. -/
def adhT1 : List Char := "Adherence was defined as PDC ≥ 0.8 over 12 months.".data

/-- Spec §8's "no metric cue" adherence sentence. -/
def encT : List Char := "We encouraged adherence through counseling sessions.".data

/-- Spec §8's trap-suppression example. -/
def guideT : List Char := "Adherence to guidelines was encouraged.".data

/-- Spec §8's trial-registration example. -/
def trialT1 : List Char := "The study was registered at ClinicalTrials.gov under NCT01234567.".data

/-- The same sentence with the NCT identifier removed. -/
def trialT2 : List Char := "The study was registered at ClinicalTrials.gov.".data

/-- A bare registry name matched by both the cue and the identifier pattern. -/
def ctgT : List Char := "ClinicalTrials.gov".data

/-- Spec §8's heading-scoping example. -/
def rsgEx : List Char :=
  "Randomisation\nThe allocation sequence was computer-generated.\n\nMethods\nAnother computer-generated sequence appears elsewhere.".data

/-- A generation cue whose randomisation keyword sits at character distance
exactly 10 (`"sequence"` starts 10 characters after `"coin toss"` ends). -/
def coinT : List Char := ("coin toss" ++ String.mk (List.replicate 10 ' ') ++ "sequence").data

/-- A healthcare-setting text with a heading block closed by a blank line. -/
def hcEx : List Char :=
  "Setting\nPatients were treated in the clinic.\n\nMethods\nAnother clinic is mentioned elsewhere.".data

/-- A healthcare-setting v5 sentence containing the non-breaking hyphen
U+2011, which `normalize_text` rewrites to an ASCII hyphen. -/
def hcInput : List Char := "conducted in big‑city clinic".data

/-- A cue (`"pdc"`) 23 characters before a trap phrase whose last characters
fall just outside the cue's 40-character context window. -/
def trapT : List Char := ("pdc" ++ String.mk (List.replicate 23 ' ') ++ "baseline adherence").data

/-- A multi-word cue sentence (`"pill count"` spans two tokens). -/
def pillT : List Char := "Pill count was measured daily.".data

/-! ## Basic lemmas about the matching engine -/

theorem mem_of_headOpt {l : List α} {a : α} (h : l.head? = some a) : a ∈ l := by
  cases l <;> simp_all

theorem ciHas_length {w u : List Char} (h : ciHas w u = true) : w.length ≤ u.length := by
  induction w generalizing u with
  | nil => simp
  | cons a as ih =>
      cases u with
      | nil => simp [ciHas] at h
      | cons b bs =>
          simp only [ciHas, Bool.and_eq_true] at h
          simpa using ih h.2

theorem clsRun_le (f : Char → Bool) (l : List Char) : clsRun f l ≤ l.length := by
  induction l with
  | nil => simp [clsRun]
  | cons c cs ih => by_cases h : f c <;> simp [clsRun, h] <;> omega


/-- Candidate lengths never run past the end of the text. -/
theorem evalRE_bdd (r : RE) :
    ∀ {t : List Char} {i k : Nat}, k ∈ evalRE r t i → i ≤ t.length → i + k ≤ t.length := by
  induction r with
  | eps => intro t i k hk hi; simp [evalRE] at hk; omega
  | lit s =>
      intro t i k hk hi
      by_cases h : ciHas s.data (t.drop i) <;> simp [evalRE, h] at hk
      have := ciHas_length h
      simp [List.length_drop] at this
      omega
  | one f =>
      intro t i k hk hi
      cases hget : t[i]? with
      | none => simp [evalRE, hget] at hk
      | some c =>
          have hlt : i < t.length := by
            have := List.getElem?_eq_some.mp hget
            exact this.1
          by_cases h : f c <;> simp [evalRE, hget, h] at hk
          omega
  | cls f lo hi lz =>
      intro t i k hk hle
      have hrun := clsRun_le f (t.drop i)
      simp only [List.length_drop] at hrun
      rcases hi with _ | m <;> rcases lz <;>
        simp only [evalRE, Option.getD_none, Option.getD_some, if_true, if_false,
          Bool.false_eq_true, List.mem_reverse, List.mem_range'_1] at hk <;>
        omega
  | seq a b iha ihb =>
      intro t i k hk hi
      simp only [evalRE, List.mem_flatMap, List.mem_map] at hk
      obtain ⟨k1, hk1, k2, hk2, rfl⟩ := hk
      have h1 := iha hk1 hi
      have h2 := ihb hk2 h1
      omega
  | alt a b iha ihb =>
      intro t i k hk hi
      simp only [evalRE, List.mem_append] at hk
      rcases hk with hk | hk
      · exact iha hk hi
      · exact ihb hk hi
  | bnd => intro t i k hk hi; simp only [evalRE] at hk; split at hk <;> simp_all
  | bol => intro t i k hk hi; simp only [evalRE] at hk; split at hk <;> simp_all
  | eol => intro t i k hk hi; simp only [evalRE] at hk; split at hk <;> simp_all

/-- When `posB` approves a pattern, every candidate consumes at least one
character. -/
theorem posB_pos {r : RE} (hr : posB r = true) :
    ∀ {t : List Char} {i k : Nat}, k ∈ evalRE r t i → 0 < k := by
  induction r with
  | eps => simp [posB] at hr
  | lit s =>
      intro t i k hk
      by_cases h : ciHas s.data (t.drop i) <;> simp [evalRE, h] at hk
      simp only [posB, Bool.not_eq_true'] at hr
      subst hk
      exact List.length_pos.mpr (by simpa [List.isEmpty_iff] using hr)
  | one f =>
      intro t i k hk
      cases hget : t[i]? with
      | none => simp [evalRE, hget] at hk
      | some c => by_cases h : f c <;> simp [evalRE, hget, h] at hk; omega
  | cls f lo hi lz =>
      intro t i k hk
      simp only [posB, decide_eq_true_eq] at hr
      rcases hi with _ | m <;> rcases lz <;>
        simp only [evalRE, Option.getD_none, Option.getD_some, if_true, if_false,
          Bool.false_eq_true, List.mem_reverse, List.mem_range'_1] at hk <;>
        omega
  | seq a b iha ihb =>
      intro t i k hk
      simp only [evalRE, List.mem_flatMap, List.mem_map] at hk
      obtain ⟨k1, hk1, k2, hk2, rfl⟩ := hk
      simp only [posB, Bool.or_eq_true] at hr
      rcases hr with hr | hr
      · have := iha hr hk1; omega
      · have := ihb hr hk2; omega
  | alt a b iha ihb =>
      intro t i k hk
      simp only [evalRE, List.mem_append] at hk
      simp only [posB, Bool.and_eq_true] at hr
      rcases hk with hk | hk
      · exact iha hr.1 hk
      · exact ihb hr.2 hk
  | bnd => simp [posB] at hr
  | bol => simp [posB] at hr
  | eol => simp [posB] at hr

/-- Spans produced by the scanner start no earlier than the scan position and
stay within the text. -/
theorem finditerA_mem (r : RE) (t : List Char) :
    ∀ (fuel i s e : Nat), (s, e) ∈ finditerA r t i fuel →
      i ≤ s ∧ s ≤ e ∧ e ≤ t.length := by
  intro fuel
  induction fuel with
  | zero => intro i s e h; simp [finditerA] at h
  | succ fuel ih =>
      intro i s e h
      simp only [finditerA] at h
      split at h
      · split at h
        · rename_i hile x k heq
          split at h
          · rcases List.mem_cons.mp h with h | h
            · obtain ⟨h1, h2⟩ := Prod.ext_iff.mp h
              simp only at h1 h2
              omega
            · have := ih (i + 1) s e h; omega
          · rcases List.mem_cons.mp h with h | h
            · have hk : k ∈ evalRE r t i := mem_of_headOpt heq
              have := evalRE_bdd r hk hile
              obtain ⟨h1, h2⟩ := Prod.ext_iff.mp h
              simp only at h1 h2
              omega
            · have := ih (i + k) s e h; omega
        · split at h
          · have := ih (i + 1) s e h; omega
          · simp at h
      · simp at h

/-- With a `posB`-approved pattern every scanned span is non-empty. -/
theorem finditerA_pos {r : RE} (hr : posB r = true) (t : List Char) :
    ∀ (fuel i s e : Nat), (s, e) ∈ finditerA r t i fuel → s < e := by
  intro fuel
  induction fuel with
  | zero => intro i s e h; simp [finditerA] at h
  | succ fuel ih =>
      intro i s e h
      simp only [finditerA] at h
      split at h
      · split at h
        · rename_i hile x k heq
          have hk : k ∈ evalRE r t i := mem_of_headOpt heq
          have hpos := posB_pos hr hk
          split at h
          · omega
          · rcases List.mem_cons.mp h with h | h
            · obtain ⟨h1, h2⟩ := Prod.ext_iff.mp h
              simp only at h1 h2
              omega
            · exact ih (i + k) s e h
        · split at h
          · exact ih (i + 1) s e h
          · simp at h
      · simp at h

/-- With a `posB`-approved pattern the scanned spans are pairwise ordered and
non-overlapping: each span ends no later than any later span starts. -/
theorem finditerA_pairwise {r : RE} (hr : posB r = true) (t : List Char) :
    ∀ (fuel i : Nat), List.Pairwise (fun x y => x.2 ≤ y.1) (finditerA r t i fuel) := by
  intro fuel
  induction fuel with
  | zero => intro i; simp [finditerA]
  | succ fuel ih =>
      intro i
      simp only [finditerA]
      split
      · split
        · rename_i hile x k heq
          have hk : k ∈ evalRE r t i := mem_of_headOpt heq
          have hpos := posB_pos hr hk
          split
          · omega
          · refine List.Pairwise.cons ?_ (ih (i + k))
            intro y hy
            have := finditerA_mem r t fuel (i + k) y.1 y.2 (by simpa using hy)
            simp only
            omega
        · split
          · exact ih (i + 1)
          · simp
      · simp

theorem tokenSpans_mem {t : List Char} {a b : Nat} (h : (a, b) ∈ tokenSpans t) :
    a < b ∧ b ≤ t.length := by
  have h1 := finditerA_mem TOKEN_RE t (t.length + 1) 0 a b h
  have h2 := finditerA_pos (r := TOKEN_RE) (by decide) t (t.length + 1) 0 a b h
  omega

theorem tokenSpans_pairwise (t : List Char) :
    List.Pairwise (fun x y => x.2 ≤ y.1) (tokenSpans t) :=
  finditerA_pairwise (by decide) t (t.length + 1) 0

theorem firstIdxA_some {p : α → Bool} :
    ∀ (l : List α) (n j : Nat), firstIdxA p l n = some j →
      ∃ m x, j = n + m ∧ l[m]? = some x ∧ p x = true ∧
        ∀ m' y, m' < m → l[m']? = some y → p y = false := by
  intro l
  induction l with
  | nil => intro n j h; simp [firstIdxA] at h
  | cons a as ih =>
      intro n j h
      by_cases hp : p a
      · simp only [firstIdxA, hp, if_true, Option.some.injEq] at h
        subst h
        refine ⟨0, a, by omega, by simp, hp, ?_⟩
        intro m' y hm'; omega
      · simp only [firstIdxA, hp, if_false, Bool.false_eq_true] at h
        obtain ⟨m, x, rfl, hget, hx, hmin⟩ := ih (n + 1) j h
        refine ⟨m + 1, x, by omega, by simpa using hget, hx, ?_⟩
        intro m' y hm' hy
        cases m' with
        | zero => simp at hy; subst hy; simpa using hp
        | succ m'' => exact hmin m'' y (by omega) (by simpa using hy)

theorem firstIdxA_eqSome {p : α → Bool} :
    ∀ (l : List α) (n m : Nat) (x : α), l[m]? = some x → p x = true →
      (∀ m' y, m' < m → l[m']? = some y → p y = false) →
      firstIdxA p l n = some (n + m) := by
  intro l
  induction l with
  | nil => intro n m x hget; simp at hget
  | cons a as ih =>
      intro n m x hget hx hmin
      cases m with
      | zero =>
          simp at hget; subst hget
          simp [firstIdxA, hx]
      | succ m' =>
          have hpa : p a = false := hmin 0 a (by omega) (by simp)
          simp only [firstIdxA, hpa, if_false, Bool.false_eq_true]
          have := ih (n + 1) m' x (by simpa using hget) hx
            (fun m'' y hm'' hy => hmin (m'' + 1) y (by omega) (by simpa using hy))
          rw [this]; congr 1; omega

theorem lastIdxA_none {p : α → Bool} :
    ∀ (l : List α) (n : Nat), lastIdxA p l n = none → ∀ x ∈ l, p x = false := by
  intro l
  induction l with
  | nil => simp
  | cons a as ih =>
      intro n h x hx
      simp only [lastIdxA] at h
      cases hrec : lastIdxA p as (n + 1) with
      | some j => rw [hrec] at h; simp at h
      | none =>
          rw [hrec] at h
          by_cases hp : p a
          · simp [hp] at h
          · rcases List.mem_cons.mp hx with rfl | hx
            · simpa using hp
            · exact ih (n + 1) hrec x hx

theorem lastIdxA_eqNone {p : α → Bool} :
    ∀ (l : List α) (n : Nat), (∀ x ∈ l, p x = false) → lastIdxA p l n = none := by
  intro l
  induction l with
  | nil => intro n h; simp [lastIdxA]
  | cons a as ih =>
      intro n h
      simp only [lastIdxA]
      rw [ih (n + 1) fun x hx => h x (List.mem_cons_of_mem a hx)]
      simp [h a (List.mem_cons_self a as)]

theorem lastIdxA_some {p : α → Bool} :
    ∀ (l : List α) (n j : Nat), lastIdxA p l n = some j →
      ∃ m x, j = n + m ∧ l[m]? = some x ∧ p x = true ∧
        ∀ m' y, m < m' → l[m']? = some y → p y = false := by
  intro l
  induction l with
  | nil => intro n j h; simp [lastIdxA] at h
  | cons a as ih =>
      intro n j h
      simp only [lastIdxA] at h
      cases hrec : lastIdxA p as (n + 1) with
      | some j' =>
          rw [hrec] at h
          simp only [Option.some.injEq] at h
          subst h
          obtain ⟨m, x, rfl, hget, hx, hmax⟩ := ih (n + 1) j' hrec
          refine ⟨m + 1, x, by omega, by simpa using hget, hx, ?_⟩
          intro m' y hm' hy
          cases m' with
          | zero => omega
          | succ m'' => exact hmax m'' y (by omega) (by simpa using hy)
      | none =>
          rw [hrec] at h
          by_cases hp : p a
          · simp only [hp, if_true, Option.some.injEq] at h
            subst h
            refine ⟨0, a, by omega, by simp, hp, ?_⟩
            intro m' y hm' hy
            cases m' with
            | zero => omega
            | succ m'' =>
                exact lastIdxA_none as (n + 1) hrec y
                  (List.getElem?_mem (by simpa using hy))
          · simp [hp] at h

theorem lastIdxA_eqSome {p : α → Bool} :
    ∀ (l : List α) (n m : Nat) (x : α), l[m]? = some x → p x = true →
      (∀ m' y, m < m' → l[m']? = some y → p y = false) →
      lastIdxA p l n = some (n + m) := by
  intro l
  induction l with
  | nil => intro n m x hget; simp at hget
  | cons a as ih =>
      intro n m x hget hx hmax
      simp only [lastIdxA]
      cases m with
      | zero =>
          simp at hget; subst hget
          rw [lastIdxA_eqNone as (n + 1) ?_]
          · simp [hx]
          · intro y hy
            obtain ⟨m'', hm''⟩ := List.getElem?_of_mem hy
            exact hmax (m'' + 1) y (by omega) (by simpa using hm'')
      | succ m' =>
          have := ih (n + 1) m' x (by simpa using hget) hx
            (fun m'' y hm'' hy => hmax (m'' + 1) y (by omega) (by simpa using hy))
          rw [this]
          simp only [Option.some.injEq]
          omega

theorem pairwise_getElem? {R : α → α → Prop} {l : List α} (h : List.Pairwise R l)
    {i j : Nat} {x y : α} (hx : l[i]? = some x) (hy : l[j]? = some y) (hij : i < j) :
    R x y := by
  rw [List.pairwise_iff_getElem] at h
  obtain ⟨hi, rfl⟩ := List.getElem?_eq_some.mp hx
  obtain ⟨hj, rfl⟩ := List.getElem?_eq_some.mp hy
  exact h i j hi hj hij

/-- A successful `_char_to_word` on a non-empty span yields an ordered pair of
valid token indices. -/
theorem charToWord_some_bounds {t : List Char} {s e ws we : Nat}
    (hcw : charToWord (s, e) (tokenSpans t) = some (ws, we)) (hse : s < e) :
    ws ≤ we ∧ ws < (tokenSpans t).length ∧ we < (tokenSpans t).length := by
  unfold charToWord at hcw
  cases h1 : firstIdxA (fun ab => ab.1 ≤ s && s < ab.2) (tokenSpans t) 0 with
  | none => rw [h1] at hcw; simp at hcw
  | some j1 =>
      cases h2 : lastIdxA (fun ab => ab.1 < e && e ≤ ab.2) (tokenSpans t) 0 with
      | none => rw [h1, h2] at hcw; simp at hcw
      | some j2 =>
          rw [h1, h2] at hcw
          simp only [Option.some.injEq, Prod.mk.injEq] at hcw
          obtain ⟨rfl, rfl⟩ := hcw
          obtain ⟨m1, x1, hj1, hget1, hx1, -⟩ := firstIdxA_some _ _ _ h1
          obtain ⟨m2, x2, hj2, hget2, hx2, -⟩ := lastIdxA_some _ _ _ h2
          have hm1 : j1 = m1 := by omega
          have hm2 : j2 = m2 := by omega
          subst hm1; subst hm2
          have hl1 : j1 < (tokenSpans t).length := (List.getElem?_eq_some.mp hget1).1
          have hl2 : j2 < (tokenSpans t).length := (List.getElem?_eq_some.mp hget2).1
          refine ⟨?_, hl1, hl2⟩
          by_contra hlt
          push_neg at hlt
          have hR := pairwise_getElem? (tokenSpans_pairwise t) hget2 hget1 hlt
          simp only [Bool.and_eq_true, decide_eq_true_eq] at hx1 hx2
          omega

/-- `_char_to_word` maps a token's own span to that token's index (twice). -/
theorem charToWord_token (t : List Char) {c : Nat} {a b : Nat}
    (hget : (tokenSpans t)[c]? = some (a, b)) :
    charToWord (a, b) (tokenSpans t) = some (c, c) := by
  have hmem : (a, b) ∈ tokenSpans t := List.getElem?_mem hget
  have hab := tokenSpans_mem hmem
  have hfirst : firstIdxA (fun ab => ab.1 ≤ a && a < ab.2) (tokenSpans t) 0 = some (0 + c) := by
    refine firstIdxA_eqSome _ _ _ _ hget
      (by simp only [Bool.and_eq_true, decide_eq_true_eq]; omega) ?_
    intro m' y hm' hy
    have hR := pairwise_getElem? (tokenSpans_pairwise t) hy hget hm'
    simp only [Bool.and_eq_false_iff, decide_eq_false_iff_not]
    omega
  have hlast : lastIdxA (fun ab => ab.1 < b && b ≤ ab.2) (tokenSpans t) 0 = some (0 + c) := by
    refine lastIdxA_eqSome _ _ _ _ hget
      (by simp only [Bool.and_eq_true, decide_eq_true_eq]; omega) ?_
    intro m' y hm' hy
    have hR := pairwise_getElem? (tokenSpans_pairwise t) hget hy hm'
    have hy2 := tokenSpans_mem (List.getElem?_mem hy)
    simp only [Bool.and_eq_false_iff, decide_eq_false_iff_not]
    omega
  unfold charToWord
  rw [hfirst, hlast]
  simp

/-- A slice of a non-empty in-range span is a non-empty substring. -/
theorem slice_valid {t : List Char} {a b : Nat} (hab : a < b) (hb : b ≤ t.length) :
    sliceL t a b ≠ [] ∧ sliceL t a b <:+: t := by
  constructor
  · have hlen : (sliceL t a b).length = min (b - a) (t.length - a) := by
      simp [sliceL]
    intro hnil
    rw [hnil] at hlen
    simp at hlen
    omega
  · refine ⟨t.take a, t.drop b, ?_⟩
    have h1 : sliceL t a b ++ t.drop b = t.drop a := by
      have hd : t.drop b = (t.drop a).drop (b - a) := by
        rw [List.drop_drop]
        congr 1
        omega
      rw [hd, sliceL, List.take_append_drop]
    rw [List.append_assoc, h1, List.take_append_drop]

/-- The shared central step of every finder: a regex match span mapped through
`_char_to_word` yields an ordered in-range word span, and its snippet is a
non-empty substring of the text. -/
theorem finding_valid {t : List Char} {s e ws we : Nat} (hse : s < e) (he : e ≤ t.length)
    (hcw : charToWord (s, e) (tokenSpans t) = some (ws, we)) :
    ws ≤ we ∧ we < (tokenSpans t).length ∧ sliceL t s e ≠ [] ∧ sliceL t s e <:+: t := by
  obtain ⟨h1, h2, h3⟩ := charToWord_some_bounds hcw hse
  obtain ⟨h4, h5⟩ := slice_valid hse he
  exact ⟨h1, h3, h4, h5⟩

/-! ## Validity of every finder's output (spec §8's Finding invariant) -/

theorem valid_adh_collect {pats : List RE} (hp : ∀ r ∈ pats, posB r = true) (t : List Char) :
    ValidOn (adherence_compliance_finder.collect pats t) t := by
  intro f hf
  simp only [adherence_compliance_finder.collect, List.mem_flatMap] at hf
  obtain ⟨patt, hpatt, m, hm, hf⟩ := hf
  obtain ⟨s, e⟩ := m
  split at hf
  · simp at hf
  · split at hf
    · rename_i x ws we heq
      simp only [List.mem_singleton] at hf
      subst hf
      have hmem := finditerA_mem patt t _ _ s e hm
      have hpos := finditerA_pos (hp patt hpatt) t _ _ s e hm
      obtain ⟨h1, h2, h3, h4⟩ := finding_valid hpos (by omega) heq
      exact ⟨h1, h2, h3, h4⟩
    · simp at hf

theorem valid_trial_collect {pats : List RE} (hp : ∀ r ∈ pats, posB r = true) (t : List Char) :
    ValidOn (trial_registration_finder.collect pats t) t := by
  intro f hf
  simp only [trial_registration_finder.collect, List.mem_flatMap] at hf
  obtain ⟨patt, hpatt, m, hm, hf⟩ := hf
  obtain ⟨s, e⟩ := m
  split at hf
  · simp at hf
  · split at hf
    · rename_i x ws we heq
      simp only [List.mem_singleton] at hf
      subst hf
      have hmem := finditerA_mem patt t _ _ s e hm
      have hpos := finditerA_pos (hp patt hpatt) t _ _ s e hm
      exact finding_valid hpos (by omega) heq
    · simp at hf

theorem valid_rsg_collect {pats : List RE} (hp : ∀ r ∈ pats, posB r = true) (t : List Char) :
    ValidOn (random_sequence_generation_finder.collect pats t) t := by
  intro f hf
  simp only [random_sequence_generation_finder.collect, List.mem_flatMap] at hf
  obtain ⟨patt, hpatt, m, hm, hf⟩ := hf
  obtain ⟨s, e⟩ := m
  split at hf
  · simp at hf
  · split at hf
    · rename_i x ws we heq
      simp only [List.mem_singleton] at hf
      subst hf
      have hmem := finditerA_mem patt t _ _ s e hm
      have hpos := finditerA_pos (hp patt hpatt) t _ _ s e hm
      exact finding_valid hpos (by omega) heq
    · simp at hf

theorem valid_hc_collect {pats : List RE} (hp : ∀ r ∈ pats, posB r = true) (t : List Char) :
    ValidOn (healthcare_setting_finder.collect pats t) t := by
  intro f hf
  simp only [healthcare_setting_finder.collect, List.mem_flatMap] at hf
  obtain ⟨patt, hpatt, m, hm, hf⟩ := hf
  obtain ⟨s, e⟩ := m
  split at hf
  · simp at hf
  · split at hf
    · rename_i x ws we heq
      simp only [List.mem_singleton] at hf
      subst hf
      have hmem := finditerA_mem patt t _ _ s e hm
      have hpos := finditerA_pos (hp patt hpatt) t _ _ s e hm
      exact finding_valid hpos (by omega) heq
    · simp at hf

theorem valid_adh_v3 (t : List Char) (bc : Nat) :
    ValidOn (adherence_compliance_finder.find_adherence_compliance_v3 t bc) t := by
  intro f hf
  simp only [adherence_compliance_finder.find_adherence_compliance_v3,
    List.mem_flatMap] at hf
  obtain ⟨m, hm, hf⟩ := hf
  obtain ⟨s, e⟩ := m
  split at hf
  · split at hf
    · rename_i x ws we heq
      simp only [List.mem_singleton] at hf
      subst hf
      have hmem := finditerA_mem _ t _ _ s e hm
      have hpos := finditerA_pos (r := adherence_compliance_finder.ADH_CUE_RE)
        (by decide) t _ _ s e hm
      exact finding_valid hpos (by omega) heq
    · simp at hf
  · simp at hf

theorem valid_trial_v3 (t : List Char) (bc : Nat) :
    ValidOn (trial_registration_finder.find_trial_registration_v3 t bc) t := by
  intro f hf
  simp only [trial_registration_finder.find_trial_registration_v3,
    List.mem_flatMap] at hf
  obtain ⟨patt, hpatt, m, hm, hf⟩ := hf
  obtain ⟨s, e⟩ := m
  split at hf
  · split at hf
    · rename_i x ws we heq
      simp only [List.mem_singleton] at hf
      subst hf
      have hmem := finditerA_mem patt t _ _ s e hm
      have hpos : s < e := by
        simp only [List.mem_cons, List.not_mem_nil, or_false] at hpatt
        rcases hpatt with rfl | rfl
        · exact finditerA_pos (by decide) t _ _ s e hm
        · exact finditerA_pos (by decide) t _ _ s e hm
      exact finding_valid hpos (by omega) heq
    · simp at hf
  · simp at hf

theorem valid_rsg_v3 (t : List Char) (bc : Nat) :
    ValidOn (random_sequence_generation_finder.find_random_sequence_generation_v3 t bc) t := by
  intro f hf
  simp only [random_sequence_generation_finder.find_random_sequence_generation_v3,
    List.mem_flatMap] at hf
  obtain ⟨m, hm, hf⟩ := hf
  obtain ⟨s, e⟩ := m
  split at hf
  · split at hf
    · rename_i x ws we heq
      simp only [List.mem_singleton] at hf
      subst hf
      have hmem := finditerA_mem _ t _ _ s e hm
      have hpos := finditerA_pos (r := random_sequence_generation_finder.GEN_CUE_RE)
        (by decide) t _ _ s e hm
      exact finding_valid hpos (by omega) heq
    · simp at hf
  · simp at hf

theorem valid_hc_v3 (t : List Char) (bc : Nat) :
    ValidOn (healthcare_setting_finder.find_healthcare_setting_v3 t bc)
      (healthcare_setting_finder.normalize_text t) := by
  intro f hf
  simp only [healthcare_setting_finder.find_healthcare_setting_v3,
    List.mem_flatMap] at hf
  obtain ⟨m, hm, hf⟩ := hf
  obtain ⟨s, e⟩ := m
  split at hf
  · split at hf
    · rename_i x ws we heq
      simp only [List.mem_singleton] at hf
      subst hf
      have hmem := finditerA_mem _ (healthcare_setting_finder.normalize_text t) _ _ s e hm
      have hpos := finditerA_pos (r := healthcare_setting_finder.FACILITY_RE)
        (by decide) (healthcare_setting_finder.normalize_text t) _ _ s e hm
      exact finding_valid hpos (by omega) heq
    · simp at hf
  · simp at hf

theorem valid_adh_v2 (t : List Char) (w : Nat) :
    ValidOn (adherence_compliance_finder.find_adherence_compliance_v2 t w) t := by
  intro f hf
  simp only [adherence_compliance_finder.find_adherence_compliance_v2,
    List.mem_flatMap] at hf
  obtain ⟨c, hc, hf⟩ := hf
  split at hf
  · split at hf
    · split at hf
      · rename_i sp hsp x ws we heq
        simp only [List.mem_singleton] at hf
        subst hf
        obtain ⟨h1, h2⟩ := tokenSpans_mem (List.getElem?_mem hsp)
        exact finding_valid h1 h2 heq
      · simp at hf
    · simp at hf
  · simp at hf

theorem valid_trial_v2 (t : List Char) (w : Nat) :
    ValidOn (trial_registration_finder.find_trial_registration_v2 t w) t := by
  intro f hf
  simp only [trial_registration_finder.find_trial_registration_v2,
    List.mem_flatMap] at hf
  obtain ⟨c, hc, hf⟩ := hf
  split at hf
  · split at hf
    · split at hf
      · rename_i sp hsp x ws we heq
        simp only [List.mem_singleton] at hf
        subst hf
        obtain ⟨h1, h2⟩ := tokenSpans_mem (List.getElem?_mem hsp)
        exact finding_valid h1 h2 heq
      · simp at hf
    · simp at hf
  · simp at hf

theorem valid_hc_v2 (t : List Char) (w : Nat) :
    ValidOn (healthcare_setting_finder.find_healthcare_setting_v2 t w)
      (healthcare_setting_finder.normalize_text t) := by
  intro f hf
  simp only [healthcare_setting_finder.find_healthcare_setting_v2,
    List.mem_flatMap] at hf
  obtain ⟨m, hm, hf⟩ := hf
  obtain ⟨s, e⟩ := m
  split at hf
  · rename_i x ws we heq
    split at hf
    · simp only [List.mem_singleton] at hf
      subst hf
      have hmem := finditerA_mem _ (healthcare_setting_finder.normalize_text t) _ _ s e hm
      have hpos := finditerA_pos (r := healthcare_setting_finder.FACILITY_RE)
        (by decide) (healthcare_setting_finder.normalize_text t) _ _ s e hm
      exact finding_valid hpos (by omega) heq
    · simp at hf
  · simp at hf

theorem valid_rsg_v2 (t : List Char) (w : Nat) :
    ValidOn (random_sequence_generation_finder.find_random_sequence_generation_v2 t w) t := by
  intro f hf
  simp only [random_sequence_generation_finder.find_random_sequence_generation_v2,
    List.mem_flatMap] at hf
  obtain ⟨m, hm, hf⟩ := hf
  obtain ⟨s, e⟩ := m
  split at hf
  · simp at hf
  · split at hf
    · split at hf
      · rename_i x ws we heq
        simp only [List.mem_singleton] at hf
        subst hf
        have hmem := finditerA_mem _ t _ _ s e hm
        have hpos := finditerA_pos (r := random_sequence_generation_finder.GEN_CUE_RE)
          (by decide) t _ _ s e hm
        exact finding_valid hpos (by omega) heq
      · simp at hf
    · simp at hf

/-- Tier 4 refines Tier 2 in the adherence family: it filters v2's output. -/
theorem sub_adh_v4_v2 (t : List Char) (w : Nat) {f : Finding}
    (hf : f ∈ adherence_compliance_finder.find_adherence_compliance_v4 t w) :
    f ∈ adherence_compliance_finder.find_adherence_compliance_v2 t w := by
  simp only [adherence_compliance_finder.find_adherence_compliance_v4] at hf
  exact (List.mem_filter.mp hf).1

/-- Tier 4 refines Tier 2 in the trial-registration family. -/
theorem sub_trial_v4_v2 (t : List Char) (w : Nat) {f : Finding}
    (hf : f ∈ trial_registration_finder.find_trial_registration_v4 t w) :
    f ∈ trial_registration_finder.find_trial_registration_v2 t w := by
  simp only [trial_registration_finder.find_trial_registration_v4] at hf
  exact (List.mem_filter.mp hf).1

/-- `normalize_text` is idempotent. -/
theorem normalize_text_idem (t : List Char) :
    healthcare_setting_finder.normalize_text (healthcare_setting_finder.normalize_text t) =
      healthcare_setting_finder.normalize_text t := by
  simp only [healthcare_setting_finder.normalize_text, healthcare_setting_finder.nfc,
    List.map_map]
  congr 1
  funext c
  by_cases h : c = '‑'
  · subst h; decide
  · simp [h]

/-- v2 on an already-normalised text equals v2 on the raw text. -/
theorem hc_v2_norm (t : List Char) (w : Nat) :
    healthcare_setting_finder.find_healthcare_setting_v2
        (healthcare_setting_finder.normalize_text t) w =
      healthcare_setting_finder.find_healthcare_setting_v2 t w := by
  simp only [healthcare_setting_finder.find_healthcare_setting_v2, normalize_text_idem]

/-- Tier 4 refines Tier 2 in the healthcare-setting family. -/
theorem sub_hc_v4_v2 (t : List Char) (w : Nat) {f : Finding}
    (hf : f ∈ healthcare_setting_finder.find_healthcare_setting_v4 t w) :
    f ∈ healthcare_setting_finder.find_healthcare_setting_v2 t w := by
  simp only [healthcare_setting_finder.find_healthcare_setting_v4] at hf
  have := (List.mem_filter.mp hf).1
  rwa [hc_v2_norm] at this

/-- Tier 4 refines Tier 2 in the random-sequence-generation family; its v2
call uses v2's default window 80 regardless of v4's own window. -/
theorem sub_rsg_v4_v2 (t : List Char) (w : Nat) {f : Finding}
    (hf : f ∈ random_sequence_generation_finder.find_random_sequence_generation_v4 t w) :
    f ∈ random_sequence_generation_finder.find_random_sequence_generation_v2 t 80 := by
  simp only [random_sequence_generation_finder.find_random_sequence_generation_v4,
    List.mem_flatMap] at hf
  obtain ⟨g, hg, hf⟩ := hf
  split at hf
  · split at hf
    · simp only [List.mem_singleton] at hf
      subst hf
      exact hg
    · simp at hf
  · simp at hf

theorem idxFrom_mem {l : List α} :
    ∀ (n i : Nat) (x : α), (i, x) ∈ idxFrom l n ↔ n ≤ i ∧ l[i - n]? = some x := by
  induction l with
  | nil => intro n i x; simp [idxFrom]
  | cons a as ih =>
      intro n i x
      simp only [idxFrom, List.mem_cons, Prod.mk.injEq]
      constructor
      · rintro (⟨rfl, rfl⟩ | h)
        · simp
        · obtain ⟨h1, h2⟩ := (ih (n + 1) i x).mp h
          refine ⟨by omega, ?_⟩
          have : i - n = (i - (n + 1)) + 1 := by omega
          rw [this, List.getElem?_cons_succ]
          exact h2
      · rintro ⟨h1, h2⟩
        rcases Nat.eq_or_lt_of_le h1 with rfl | hlt
        · simp at h2
          exact Or.inl ⟨rfl, h2.symm⟩
        · refine Or.inr ((ih (n + 1) i x).mpr ⟨by omega, ?_⟩)
          have : i - n = (i - (n + 1)) + 1 := by omega
          rw [this, List.getElem?_cons_succ] at h2
          exact h2

/-- Membership in the `{i for i, t in enumerate(tokens) if R.fullmatch(t)}`
index sets the v2/v4 tiers build. -/
theorem mem_tokIdx (t : List Char) (r : RE) (c : Nat) :
    c ∈ (((idxFrom ((tokenSpans t).map fun ab => sliceL t ab.1 ab.2) 0).filter
        fun it => fullmatchB r it.2).map (·.1)) ↔
      ∃ a b, (tokenSpans t)[c]? = some (a, b) ∧ fullmatchB r (sliceL t a b) = true := by
  simp only [List.mem_map, List.mem_filter]
  constructor
  · rintro ⟨⟨i, x⟩, ⟨hmem, hfull⟩, rfl⟩
    obtain ⟨-, hget⟩ := (idxFrom_mem 0 i x).mp hmem
    simp only [Nat.sub_zero, List.getElem?_map] at hget
    cases hsp : (tokenSpans t)[i]? with
    | none => rw [hsp] at hget; simp at hget
    | some sp =>
        obtain ⟨sa, sb⟩ := sp
        rw [hsp] at hget
        simp only [Option.map_some', Option.some.injEq] at hget
        subst hget
        exact ⟨sa, sb, rfl, hfull⟩
  · rintro ⟨a, b, hget, hfull⟩
    refine ⟨(c, sliceL t a b), ⟨?_, hfull⟩, rfl⟩
    refine (idxFrom_mem 0 c _).mpr ⟨by omega, ?_⟩
    simp only [Nat.sub_zero, List.getElem?_map, hget, Option.map_some']

/-- Shape of every tier-2 adherence finding: the cue regex fullmatched a single
token, so the word span is one token wide and the snippet is that token. -/
theorem adh_v2_shape {t : List Char} {w : Nat} {f : Finding}
    (hf : f ∈ adherence_compliance_finder.find_adherence_compliance_v2 t w) :
    f.1 = f.2.1 ∧ ∃ a b, (tokenSpans t)[f.1]? = some (a, b) ∧
      fullmatchB adherence_compliance_finder.ADH_CUE_RE (sliceL t a b) = true ∧
      f.2.2 = sliceL t a b := by
  simp only [adherence_compliance_finder.find_adherence_compliance_v2,
    List.mem_flatMap] at hf
  obtain ⟨c, hc, hf⟩ := hf
  split at hf
  · split at hf
    · rename_i x0 sp hsp
      obtain ⟨sa, sb⟩ := sp
      split at hf
      · rename_i x ws we heq
        simp only [List.mem_singleton] at hf
        subst hf
        have htok := charToWord_token t hsp
        rw [htok] at heq
        simp only [Option.some.injEq, Prod.mk.injEq] at heq
        obtain ⟨rfl, rfl⟩ := heq
        obtain ⟨a, b, hget, hfull⟩ := (mem_tokIdx t adherence_compliance_finder.ADH_CUE_RE c).mp hc
        rw [hget] at hsp
        simp only [Option.some.injEq, Prod.mk.injEq] at hsp
        obtain ⟨rfl, rfl⟩ := hsp
        exact ⟨rfl, a, b, hget, hfull, rfl⟩
      · simp at hf
    · simp at hf
  · simp at hf

/-- Membership criterion for tier-2 adherence findings: the token-window test
is inclusive (`adist v c ≤ window`). -/
theorem adh_v2_iff (t : List Char) (w : Nat) {c a b : Nat}
    (hget : (tokenSpans t)[c]? = some (a, b))
    (hcue : fullmatchB adherence_compliance_finder.ADH_CUE_RE (sliceL t a b) = true) :
    (c, c, sliceL t a b) ∈ adherence_compliance_finder.find_adherence_compliance_v2 t w ↔
      ∃ v a' b', (tokenSpans t)[v]? = some (a', b') ∧
        fullmatchB adherence_compliance_finder.VERB_RE (sliceL t a' b') = true ∧
        adist v c ≤ w := by
  constructor
  · intro hf
    simp only [adherence_compliance_finder.find_adherence_compliance_v2,
      List.mem_flatMap] at hf
    obtain ⟨c', hc', hf⟩ := hf
    split at hf
    · rename_i hany
      split at hf
      · rename_i x0 sp hsp
        obtain ⟨sa, sb⟩ := sp
        split at hf
        · rename_i x ws we heq
          simp only [List.mem_singleton, Prod.mk.injEq] at hf
          have htok := charToWord_token t hsp
          rw [htok] at heq
          simp only [Option.some.injEq, Prod.mk.injEq] at heq
          obtain ⟨rfl, rfl⟩ := heq
          obtain ⟨rfl, -, -⟩ := hf
          simp only [List.any_eq_true, decide_eq_true_eq] at hany
          obtain ⟨v, hv, hd⟩ := hany
          obtain ⟨a', b', hv1, hv2⟩ :=
            (mem_tokIdx t adherence_compliance_finder.VERB_RE v).mp hv
          exact ⟨v, a', b', hv1, hv2, hd⟩
        · simp at hf
      · simp at hf
    · simp at hf
  · rintro ⟨v, a', b', hv1, hv2, hd⟩
    simp only [adherence_compliance_finder.find_adherence_compliance_v2,
      List.mem_flatMap]
    refine ⟨c, (mem_tokIdx t adherence_compliance_finder.ADH_CUE_RE c).mpr ⟨a, b, hget, hcue⟩, ?_⟩
    rw [if_pos ?_]
    · simp only [hget]
      rw [charToWord_token t hget]
      simp
    · simp only [List.any_eq_true, decide_eq_true_eq]
      exact ⟨v, (mem_tokIdx t adherence_compliance_finder.VERB_RE v).mpr ⟨a', b', hv1, hv2⟩, hd⟩

/-- Every tier-1 adherence finding arises from a cue match whose 40-character
context window the trap regex does **not** match. -/
theorem adh_v1_from_untrapped {t : List Char} {f : Finding}
    (hf : f ∈ adherence_compliance_finder.find_adherence_compliance_v1 t) :
    ∃ s e, (s, e) ∈ finditer adherence_compliance_finder.ADH_CUE_RE t ∧
      searchB adherence_compliance_finder.TRAP_RE (sliceL t (s - 40) (e + 40)) = false ∧
      charToWord (s, e) (tokenSpans t) = some (f.1, f.2.1) ∧
      f.2.2 = sliceL t s e := by
  simp only [adherence_compliance_finder.find_adherence_compliance_v1,
    adherence_compliance_finder.collect, List.mem_flatMap, List.mem_singleton] at hf
  obtain ⟨patt, hpatt, m, hm, hf⟩ := hf
  obtain ⟨s, e⟩ := m
  subst hpatt
  split at hf
  · simp at hf
  · rename_i htrap
    split at hf
    · rename_i x ws we heq
      simp only [List.mem_singleton] at hf
      subst hf
      exact ⟨s, e, hm, by simpa using htrap, heq, rfl⟩
    · simp at hf

theorem blankAtB_false_of_ge {t : List Char} {j : Nat} (h : t.length ≤ j) :
    blankAtB t j = false := by
  simp only [blankAtB]
  rw [List.getElem?_eq_none h]
  simp

theorem findNlNl_go_none {t : List Char} :
    ∀ (fuel j : Nat), t.length - j ≤ fuel → findNlNl.go t j fuel = none →
      ∀ k, j ≤ k → blankAtB t k = false := by
  intro fuel
  induction fuel with
  | zero =>
      intro j hfuel _ k hk
      exact blankAtB_false_of_ge (by omega)
  | succ fuel ih =>
      intro j hfuel h k hk
      simp only [findNlNl.go] at h
      split at h
      · split at h
        · simp at h
        · rename_i hlt hblank
          rcases Nat.eq_or_lt_of_le hk with rfl | hlt2
          · simpa [blankAtB] using hblank
          · exact ih (j + 1) (by omega) h k (by omega)
      · rename_i hge
        exact blankAtB_false_of_ge (by omega)

theorem findNlNl_go_some {t : List Char} :
    ∀ (fuel j j' : Nat), findNlNl.go t j fuel = some j' →
      j ≤ j' ∧ blankAtB t j' = true ∧ ∀ k, j ≤ k → k < j' → blankAtB t k = false := by
  intro fuel
  induction fuel with
  | zero => intro j j' h; simp [findNlNl.go] at h
  | succ fuel ih =>
      intro j j' h
      simp only [findNlNl.go] at h
      split at h
      · split at h
        · rename_i hlt hblank
          simp only [Option.some.injEq] at h
          subst h
          refine ⟨le_refl j, by simpa [blankAtB] using hblank, ?_⟩
          intro k hk1 hk2; omega
        · rename_i hlt hblank
          obtain ⟨h1, h2, h3⟩ := ih (j + 1) j' h
          refine ⟨by omega, h2, ?_⟩
          intro k hk1 hk2
          rcases Nat.eq_or_lt_of_le hk1 with rfl | hlt2
          · simpa [blankAtB] using hblank
          · exact h3 k (by omega) hk2
      · simp at h

theorem findNlNl_some {t : List Char} {s j : Nat} (h : findNlNl t s = some j) :
    s ≤ j ∧ blankAtB t j = true ∧ ∀ k, s ≤ k → k < j → blankAtB t k = false :=
  findNlNl_go_some _ s j h

theorem findNlNl_none {t : List Char} {s : Nat} (h : findNlNl t s = none) :
    ∀ k, s ≤ k → blankAtB t k = false :=
  findNlNl_go_none _ s (le_refl _) h

/-- Every healthcare-setting v3 block ends at the earlier of the next
blank-line boundary and `block_chars` past its start: it never exceeds
`block_chars`, contains no blank-line start, and, unless it was cut at
`block_chars`, ends exactly on a blank line. -/
theorem hcBlocks_spec (t : List Char) (bc : Nat) {s e : Nat}
    (h : (s, e) ∈ healthcare_setting_finder.hcBlocks t bc) :
    e ≤ s + bc ∧ (∀ j, s ≤ j → j < e → blankAtB t j = false) ∧
      (blankAtB t e = true ∨ e = s + bc) := by
  simp only [healthcare_setting_finder.hcBlocks, List.mem_map] at h
  obtain ⟨hd, hmem, h⟩ := h
  split at h
  · rename_i x nxt hnl
    obtain ⟨h1, h2, h3⟩ := findNlNl_some hnl
    split at h
    · rename_i hle
      simp only [Prod.mk.injEq] at h
      obtain ⟨rfl, rfl⟩ := h
      exact ⟨by omega, fun j hj1 hj2 => h3 j hj1 hj2, Or.inl h2⟩
    · rename_i hgt
      simp only [Prod.mk.injEq] at h
      obtain ⟨rfl, rfl⟩ := h
      exact ⟨le_refl _, fun j hj1 hj2 => h3 j hj1 (by omega), Or.inr rfl⟩
  · rename_i x hnl
    simp only [Prod.mk.injEq] at h
    obtain ⟨rfl, rfl⟩ := h
    exact ⟨le_refl _, fun j hj1 hj2 => findNlNl_none hnl j hj1, Or.inr rfl⟩

/-- Every random-sequence-generation v3 block ends exactly `block_chars` past
its start (clamped to the text end), regardless of blank lines. -/
theorem rsgBlocks_spec (t : List Char) (bc : Nat) {s e : Nat}
    (h : (s, e) ∈ random_sequence_generation_finder.rsgBlocks t bc) :
    e = min t.length (s + bc) := by
  simp only [random_sequence_generation_finder.rsgBlocks, List.mem_map] at h
  obtain ⟨hd, hmem, h⟩ := h
  simp only [Prod.mk.injEq] at h
  obtain ⟨rfl, rfl⟩ := h
  rfl

theorem firstIdxA_none {p : α → Bool} :
    ∀ (l : List α) (n : Nat), firstIdxA p l n = none → ∀ x ∈ l, p x = false := by
  intro l
  induction l with
  | nil => simp
  | cons a as ih =>
      intro n h x hx
      by_cases hp : p a
      · simp [firstIdxA, hp] at h
      · simp only [firstIdxA, hp, if_false, Bool.false_eq_true] at h
        rcases List.mem_cons.mp hx with rfl | hx
        · simpa using hp
        · exact ih (n + 1) h x hx

theorem firstIdxA_eqNone {p : α → Bool} :
    ∀ (l : List α) (n : Nat), (∀ x ∈ l, p x = false) → firstIdxA p l n = none := by
  intro l
  induction l with
  | nil => intro n h; simp [firstIdxA]
  | cons a as ih =>
      intro n h
      simp only [firstIdxA, h a (List.mem_cons_self a as), if_false, Bool.false_eq_true]
      exact ih (n + 1) fun x hx => h x (List.mem_cons_of_mem a hx)

/-! ## The claims -/

/-- Claim C4, counterexample: the claim's second half fails.
`find_adherence_compliance_v1("We encouraged adherence through counseling
sessions.")` is not the empty list: the bare word "adherence" is itself a
v1 cue (`ADH_CUE_RE` lists it as an alternative), no trap phrase is nearby,
and the finder returns the finding `(2, 2, "adherence")`. -/
theorem C4_counterexample :
    adherence_compliance_finder.find_adherence_compliance_v1 encT =
        [(2, 2, "adherence".data)] ∧
    adherence_compliance_finder.find_adherence_compliance_v1 encT ≠ [] := by
  constructor
  · decide
  · decide

/-- Claim C4, amended: `find_adherence_compliance_v5` on the canonical sentence
returns exactly one finding whose snippet is the template match, while
`find_adherence_compliance_v1` on the counseling sentence returns exactly the
single finding `(2, 2, "adherence")` (not the empty list: "adherence" alone is
a tier-1 cue). -/
theorem C4_amended :
    adherence_compliance_finder.find_adherence_compliance_v5 adhT1 =
        [(0, 6, "Adherence was defined as PDC ≥ 0.8".data)] ∧
    adherence_compliance_finder.find_adherence_compliance_v1 encT =
        [(2, 2, "adherence".data)] := by
  constructor
  · decide
  · decide

/-- Claim C5, counterexample: `find_trial_registration_v4` on the example
sentence returns three findings, not one — the verb test and identifier test
accept the cue "registered", the registry name "ClinicalTrials.gov" and the
identifier token "NCT01234567." alike. -/
theorem C5_counterexample :
    (trial_registration_finder.find_trial_registration_v4 trialT1 6).length = 3 ∧
    (trial_registration_finder.find_trial_registration_v4 trialT1 6).length ≠ 1 := by
  constructor
  · decide
  · decide

/-- Claim C5, amended: on the example sentence v4 returns three findings (for
the verb "registered", for "ClinicalTrials.gov" and for the "NCT01234567."
token); with the NCT identifier removed v4 returns the empty list while v1
still returns a non-empty list. -/
theorem C5_amended :
    (trial_registration_finder.find_trial_registration_v4 trialT1 6).length = 3 ∧
    (3, 3, "registered".data) ∈ trial_registration_finder.find_trial_registration_v4 trialT1 6 ∧
    (5, 5, "ClinicalTrials.gov".data) ∈
        trial_registration_finder.find_trial_registration_v4 trialT1 6 ∧
    (7, 7, "NCT01234567.".data) ∈
        trial_registration_finder.find_trial_registration_v4 trialT1 6 ∧
    trial_registration_finder.find_trial_registration_v4 trialT2 6 = [] ∧
    trial_registration_finder.find_trial_registration_v1 trialT2 ≠ [] := by
  refine ⟨by decide, by decide, by decide, by decide, by decide, by decide⟩

/-- Claim C9, confirmed: on a text consisting of "ClinicalTrials.gov" both the
cue pattern and the registry-identifier pattern match the same span, and
`find_trial_registration_v1` concatenates their findings without
deduplication, returning the identical tuple twice. -/
theorem C9_duplicate_findings :
    trial_registration_finder.find_trial_registration_v1 ctgT =
        [(0, 0, "ClinicalTrials.gov".data), (0, 0, "ClinicalTrials.gov".data)] ∧
    (trial_registration_finder.find_trial_registration_v1 ctgT).count
        (0, 0, "ClinicalTrials.gov".data) = 2 := by
  constructor
  · decide
  · decide

/-- Claim C2, counterexample: `find_random_sequence_generation_v3` has no
blank-line boundary — its heading block runs a full `block_chars` past the
heading — so on the spec's own example both occurrences of
"computer-generated" are retained, not only the one before the blank line. -/
theorem C2_counterexample :
    random_sequence_generation_finder.find_random_sequence_generation_v3 rsgEx 400 =
        [(5, 5, "computer-generated".data), (8, 8, "computer-generated".data)] ∧
    (8, 8, "computer-generated".data) ∈
        random_sequence_generation_finder.find_random_sequence_generation_v3 rsgEx 400 := by
  constructor
  · decide
  · decide

/-- Claim C2, amended: the "earlier of blank line and `block_chars`" rule
holds for the healthcare-setting family — every `hcBlocks` block stays within
`block_chars`, contains no blank-line start, and ends on a blank line unless
cut at `block_chars` — and that family keeps only the in-block cue on a
two-section example.  The random-sequence-generation family's blocks instead
always end `block_chars` past the heading (clamped to the text end), so on the
spec's example v3 retains both occurrences of the cue. -/
theorem C2_amended :
    (∀ (t : List Char) (bc s e : Nat), (s, e) ∈ healthcare_setting_finder.hcBlocks t bc →
      e ≤ s + bc ∧ (∀ j, s ≤ j → j < e → blankAtB t j = false) ∧
        (blankAtB t e = true ∨ e = s + bc)) ∧
    (∀ (t : List Char) (bc s e : Nat),
      (s, e) ∈ random_sequence_generation_finder.rsgBlocks t bc →
        e = min t.length (s + bc)) ∧
    healthcare_setting_finder.find_healthcare_setting_v3 hcEx 250 =
        [(6, 6, "clinic".data)] ∧
    random_sequence_generation_finder.find_random_sequence_generation_v3 rsgEx 400 =
        [(5, 5, "computer-generated".data), (8, 8, "computer-generated".data)] := by
  refine ⟨fun t bc s e h => hcBlocks_spec t bc h,
          fun t bc s e h => rsgBlocks_spec t bc h, by decide, by decide⟩

/-- Claim C2, amended-theorem witness at a concrete block of the example. -/
theorem C2_amended_witness : (125 : Nat) = min rsgEx.length (13 + 400) :=
  C2_amended.2.1 rsgEx 400 13 125 (by decide)

/-- Claim C3, counterexample: the tier-5 finding on the canonical sentence
covers the whole template (word span `(0, 6)`, snippet the full matched
phrase), which tier 1 never emits — its findings are single cue matches — so
Tier-5 output is not a subset of Tier-1 output. -/
theorem C3_counterexample :
    (0, 6, "Adherence was defined as PDC ≥ 0.8".data) ∈
        adherence_compliance_finder.find_adherence_compliance_v5 adhT1 ∧
    (0, 6, "Adherence was defined as PDC ≥ 0.8".data) ∉
        adherence_compliance_finder.find_adherence_compliance_v1 adhT1 := by
  constructor
  · decide
  · decide

/-- Claim C3, amended: the Tier-4 ⊆ Tier-2 half is true in every embedded
family (for the same window, except random-sequence-generation, whose v4
always invokes v2 with its default window 80); the Tier-5 ⊆ Tier-1 half fails
because v5 findings span the whole template while v1 findings are cue-sized,
as the canonical sentence shows. -/
theorem C3_amended :
    (∀ (t : List Char) (w : Nat) (f : Finding),
      f ∈ adherence_compliance_finder.find_adherence_compliance_v4 t w →
        f ∈ adherence_compliance_finder.find_adherence_compliance_v2 t w) ∧
    (∀ (t : List Char) (w : Nat) (f : Finding),
      f ∈ trial_registration_finder.find_trial_registration_v4 t w →
        f ∈ trial_registration_finder.find_trial_registration_v2 t w) ∧
    (∀ (t : List Char) (w : Nat) (f : Finding),
      f ∈ healthcare_setting_finder.find_healthcare_setting_v4 t w →
        f ∈ healthcare_setting_finder.find_healthcare_setting_v2 t w) ∧
    (∀ (t : List Char) (w : Nat) (f : Finding),
      f ∈ random_sequence_generation_finder.find_random_sequence_generation_v4 t w →
        f ∈ random_sequence_generation_finder.find_random_sequence_generation_v2 t 80) ∧
    (0, 6, "Adherence was defined as PDC ≥ 0.8".data) ∈
        adherence_compliance_finder.find_adherence_compliance_v5 adhT1 ∧
    (0, 6, "Adherence was defined as PDC ≥ 0.8".data) ∉
        adherence_compliance_finder.find_adherence_compliance_v1 adhT1 := by
  refine ⟨fun t w f hf => sub_adh_v4_v2 t w hf,
          fun t w f hf => sub_trial_v4_v2 t w hf,
          fun t w f hf => sub_hc_v4_v2 t w hf,
          fun t w f hf => sub_rsg_v4_v2 t w hf, by decide, by decide⟩

/-- Claim C3, amended-theorem witness: a concrete v4 finding is in v2. -/
theorem C3_amended_witness :
    (0, 0, "Adherence".data) ∈
      adherence_compliance_finder.find_adherence_compliance_v2 adhT1 6 :=
  C3_amended.1 adhT1 6 (0, 0, "Adherence".data) (by decide)

/-- Claim C6, counterexample: the code checks the trap against the *truncated*
context substring `text[s-40:e+40]`, not against distance.  Here the cue
"pdc" lies 23 characters (≤ the 40-character radius) before a
"baseline adherence" trap occurrence at `(26, 44)`, but the cue's context
window ends at character 43 and cuts the trap's final letter, so the trap
search fails and the finding `(0, 0, "pdc")` appears in the output anyway. -/
theorem C6_counterexample :
    (0, 3) ∈ finditer adherence_compliance_finder.ADH_CUE_RE trapT ∧
    (26, 44) ∈ finditer adherence_compliance_finder.TRAP_RE trapT ∧
    26 - 3 ≤ 40 ∧
    (0, 0, "pdc".data) ∈
        adherence_compliance_finder.find_adherence_compliance_v1 trapT := by
  refine ⟨by decide, by decide, by decide, by decide⟩

/-- Claim C6, amended: a candidate is suppressed exactly when the trap regex
matches the truncated context substring `text[max(0, s-40) : e+40]` — every
emitted tier-1 finding arises from a cue match on whose truncated window the
trap search failed (a trap phrase only partially inside the window does not
suppress) — and the spec's example still yields the empty list. -/
theorem C6_amended :
    (∀ (t : List Char) (f : Finding),
      f ∈ adherence_compliance_finder.find_adherence_compliance_v1 t →
        ∃ s e, (s, e) ∈ finditer adherence_compliance_finder.ADH_CUE_RE t ∧
          searchB adherence_compliance_finder.TRAP_RE (sliceL t (s - 40) (e + 40)) = false ∧
          charToWord (s, e) (tokenSpans t) = some (f.1, f.2.1) ∧
          f.2.2 = sliceL t s e) ∧
    adherence_compliance_finder.find_adherence_compliance_v1 guideT = [] := by
  exact ⟨fun t f hf => adh_v1_from_untrapped hf, by decide⟩

/-- Claim C6, amended-theorem witness at the truncation example. -/
theorem C6_amended_witness :
    ∃ s e, (s, e) ∈ finditer adherence_compliance_finder.ADH_CUE_RE trapT ∧
      searchB adherence_compliance_finder.TRAP_RE (sliceL trapT (s - 40) (e + 40)) = false ∧
      charToWord (s, e) (tokenSpans trapT) =
        some (((0 : Nat), (0 : Nat), "pdc".data).1, ((0 : Nat), (0 : Nat), "pdc".data).2.1) ∧
      ((0 : Nat), (0 : Nat), "pdc".data).2.2 = sliceL trapT s e :=
  C6_amended.1 trapT (0, 0, "pdc".data) (by decide)

/-- Claim C7, counterexample: the character-distance family compares strictly.
In `coinT` the keyword "sequence" starts exactly 10 characters after the cue
"coin toss" ends; with `window = 10` the claim's inclusive test (`≤ window`)
would retain the anchor, but `find_random_sequence_generation_v2` uses `<`
and returns the empty list. -/
theorem C7_counterexample :
    (0, 9) ∈ finditer random_sequence_generation_finder.GEN_CUE_RE coinT ∧
    (19, 27) ∈ finditer random_sequence_generation_finder.RAND_KEY_RE coinT ∧
    19 - 9 = 10 ∧
    random_sequence_generation_finder.find_random_sequence_generation_v2 coinT 10 = [] := by
  refine ⟨by decide, by decide, by decide, by decide⟩

/-- Claim C7, amended: in the token-distance adherence family the boundary is
inclusive — a cue token is retained iff some verb token lies within
`|v - c| ≤ window` — while in the character-distance family
(random-sequence-generation v2) the cross distances between raw match offsets
are compared strictly (`< window`): at distance exactly `window` the anchor is
dropped, at `window + 1` (strictly containing it) it is kept. -/
theorem C7_amended :
    (∀ (t : List Char) (w c a b : Nat), (tokenSpans t)[c]? = some (a, b) →
      fullmatchB adherence_compliance_finder.ADH_CUE_RE (sliceL t a b) = true →
      ((c, c, sliceL t a b) ∈
          adherence_compliance_finder.find_adherence_compliance_v2 t w ↔
        ∃ v a' b', (tokenSpans t)[v]? = some (a', b') ∧
          fullmatchB adherence_compliance_finder.VERB_RE (sliceL t a' b') = true ∧
          adist v c ≤ w)) ∧
    random_sequence_generation_finder.find_random_sequence_generation_v2 coinT 10 = [] ∧
    random_sequence_generation_finder.find_random_sequence_generation_v2 coinT 11 =
        [(0, 1, "coin toss".data)] := by
  refine ⟨fun t w c a b hget hcue => adh_v2_iff t w hget hcue, by decide, by decide⟩

/-- Claim C7, amended-theorem witness: the verb "defined" is two tokens from
the cue "Adherence", so with window 4 the cue is retained. -/
theorem C7_amended_witness :
    (0, 0, sliceL adhT1 0 9) ∈
      adherence_compliance_finder.find_adherence_compliance_v2 adhT1 4 :=
  (C7_amended.1 adhT1 4 0 0 9 (by decide) (by decide)).mpr
    ⟨2, 14, 21, by decide, by decide, by decide⟩

/-- Claim C8, confirmed: for a span `(s, e)` with `0 ≤ s < e ≤ len(text)`,
`_char_to_word` returns a value exactly when a covering token range exists —
some token contains the start offset `s` and some token contains the span's
last offset `e - 1` (so a span inside pure whitespace raises, modelled as
`none`, where Python raises `StopIteration`).  When it returns `(w_s, w_e)`,
`w_s` is the first token whose range contains `s` and `w_e` is the last token
containing an offset of the span. -/
theorem C8_char_to_word (t : List Char) (s e : Nat) (hse : s < e) (hle : e ≤ t.length) :
    (charToWord (s, e) (tokenSpans t) = none ↔
      ¬((∃ p ∈ tokenSpans t, p.1 ≤ s ∧ s < p.2) ∧
        (∃ p ∈ tokenSpans t, p.1 ≤ e - 1 ∧ e - 1 < p.2))) ∧
    (∀ ws we, charToWord (s, e) (tokenSpans t) = some (ws, we) →
      (∃ a b, (tokenSpans t)[ws]? = some (a, b) ∧ a ≤ s ∧ s < b) ∧
      (∀ j a b, (tokenSpans t)[j]? = some (a, b) → a ≤ s → s < b → ws ≤ j) ∧
      (∃ a b, (tokenSpans t)[we]? = some (a, b) ∧
        ∃ o, s ≤ o ∧ o < e ∧ a ≤ o ∧ o < b) ∧
      (∀ j a b, (tokenSpans t)[j]? = some (a, b) →
        (∃ o, s ≤ o ∧ o < e ∧ a ≤ o ∧ o < b) → j ≤ we)) := by
  have hP2 : ∀ x : Nat × Nat, ((x.1 < e ∧ e ≤ x.2) ↔ (x.1 ≤ e - 1 ∧ e - 1 < x.2)) := by
    intro x; omega
  constructor
  · constructor
    · intro hnone
      intro ⟨⟨p1, hp1, hp1s⟩, ⟨p2, hp2, hp2e⟩⟩
      unfold charToWord at hnone
      cases h1 : firstIdxA (fun ab => ab.1 ≤ s && s < ab.2) (tokenSpans t) 0 with
      | none =>
          have := firstIdxA_none _ _ h1 p1 hp1
          simp only [Bool.and_eq_false_iff, decide_eq_false_iff_not] at this
          omega
      | some j1 =>
          cases h2 : lastIdxA (fun ab => ab.1 < e && e ≤ ab.2) (tokenSpans t) 0 with
          | none =>
              have := lastIdxA_none _ _ h2 p2 hp2
              simp only [Bool.and_eq_false_iff, decide_eq_false_iff_not] at this
              omega
          | some j2 => rw [h1, h2] at hnone; simp at hnone
    · intro hno
      rw [not_and_or] at hno
      unfold charToWord
      rcases hno with hno | hno
      · rw [firstIdxA_eqNone (tokenSpans t) 0 ?_]
        · intro x hx
          simp only [Bool.and_eq_false_iff, decide_eq_false_iff_not]
          push_neg at hno
          have := hno x hx
          omega
      · rw [lastIdxA_eqNone (tokenSpans t) 0 ?_]
        · cases firstIdxA (fun ab => ab.1 ≤ s && s < ab.2) (tokenSpans t) 0 <;> rfl
        · intro x hx
          simp only [Bool.and_eq_false_iff, decide_eq_false_iff_not]
          push_neg at hno
          have := hno x hx
          omega
  · intro ws we heq
    unfold charToWord at heq
    cases h1 : firstIdxA (fun ab => ab.1 ≤ s && s < ab.2) (tokenSpans t) 0 with
    | none => rw [h1] at heq; simp at heq
    | some j1 =>
        cases h2 : lastIdxA (fun ab => ab.1 < e && e ≤ ab.2) (tokenSpans t) 0 with
        | none => rw [h1, h2] at heq; simp at heq
        | some j2 =>
            rw [h1, h2] at heq
            simp only [Option.some.injEq, Prod.mk.injEq] at heq
            obtain ⟨rfl, rfl⟩ := heq
            obtain ⟨m1, x1, hj1, hget1, hx1, hmin⟩ := firstIdxA_some _ _ _ h1
            obtain ⟨m2, x2, hj2, hget2, hx2, hmax⟩ := lastIdxA_some _ _ _ h2
            have hm1 : j1 = m1 := by omega
            have hm2 : j2 = m2 := by omega
            subst hm1; subst hm2
            obtain ⟨a1, b1⟩ := x1
            obtain ⟨a2, b2⟩ := x2
            simp only [Bool.and_eq_true, decide_eq_true_eq] at hx1 hx2
            refine ⟨⟨a1, b1, hget1, hx1.1, hx1.2⟩, ?_, ?_, ?_⟩
            · intro j a b hget ha hb
              by_contra hlt
              push_neg at hlt
              have := hmin j (a, b) (by omega) hget
              simp only [Bool.and_eq_false_iff, decide_eq_false_iff_not] at this
              omega
            · exact ⟨a2, b2, hget2, e - 1, by omega, by omega, by omega, by omega⟩
            · intro j a b hget ⟨o, ho1, ho2, ho3, ho4⟩
              by_contra hlt
              push_neg at hlt
              have hR := pairwise_getElem? (tokenSpans_pairwise t) hget2 hget hlt
              simp only at hR
              omega

/-- Claim C8 witness: the span `(1, 2)` of `"a b"` lies inside whitespace and
`_char_to_word` returns no value (Python raises). -/
theorem C8_char_to_word_witness :
    charToWord (1, 2) (tokenSpans "a b".data) = none :=
  (C8_char_to_word "a b".data 1 2 (by decide) (by decide)).1.mpr (by decide)

/-- Claim C10, confirmed: every tier-2 (and hence tier-4) adherence finding
has equal start and end word indices and a snippet equal to the single
whitespace-delimited token at that index, because tier-2 cue detection
fullmatches the cue regex against individual tokens; consequently the
multi-word cue "Pill count" is found by v1 but never by v2 or v4. -/
theorem C10_v2_single_token :
    (∀ (t : List Char) (w : Nat) (f : Finding),
      f ∈ adherence_compliance_finder.find_adherence_compliance_v2 t w →
        f.1 = f.2.1 ∧ ∃ a b, (tokenSpans t)[f.1]? = some (a, b) ∧ f.2.2 = sliceL t a b) ∧
    (∀ (t : List Char) (w : Nat) (f : Finding),
      f ∈ adherence_compliance_finder.find_adherence_compliance_v4 t w →
        f.1 = f.2.1 ∧ ∃ a b, (tokenSpans t)[f.1]? = some (a, b) ∧ f.2.2 = sliceL t a b) ∧
    adherence_compliance_finder.find_adherence_compliance_v1 pillT =
        [(0, 1, "Pill count".data)] ∧
    adherence_compliance_finder.find_adherence_compliance_v2 pillT 4 = [] ∧
    adherence_compliance_finder.find_adherence_compliance_v4 pillT 6 = [] := by
  have hshape : ∀ (t : List Char) (w : Nat) (f : Finding),
      f ∈ adherence_compliance_finder.find_adherence_compliance_v2 t w →
        f.1 = f.2.1 ∧ ∃ a b, (tokenSpans t)[f.1]? = some (a, b) ∧ f.2.2 = sliceL t a b := by
    intro t w f hf
    obtain ⟨h1, a, b, hget, -, hsnip⟩ := adh_v2_shape hf
    exact ⟨h1, a, b, hget, hsnip⟩
  refine ⟨hshape, fun t w f hf => hshape t w f (sub_adh_v4_v2 t w hf),
          by decide, by decide, by decide⟩

/-- Claim C10 witness: the tier-2 finding for "Adherence" on the canonical
sentence is token-shaped. -/
theorem C10_v2_single_token_witness :
    ((0 : Nat), (0 : Nat), "Adherence".data).1 = ((0 : Nat), (0 : Nat), "Adherence".data).2.1 ∧
    ∃ a b, (tokenSpans adhT1)[(((0 : Nat), (0 : Nat), "Adherence".data)).1]? = some (a, b) ∧
      (((0 : Nat), (0 : Nat), "Adherence".data)).2.2 = sliceL adhT1 a b :=
  C10_v2_single_token.1 adhT1 4 (0, 0, "Adherence".data) (by decide)

/-- Claim C1, counterexample: `healthcare_setting_finder` normalises the text
before matching (U+2011 → "-"), so on input "conducted in big‑city clinic"
(with a non-breaking hyphen) v5's snippet "conducted in big-city clinic"
carries an ASCII hyphen and is *not* a substring of the text the caller
passed. -/
theorem C1_counterexample :
    healthcare_setting_finder.find_healthcare_setting_v5 hcInput =
        [(0, 3, "conducted in big-city clinic".data)] ∧
    ¬("conducted in big-city clinic".data <:+: hcInput) := by
  constructor
  · decide
  · decide

/-- Claim C1, amended: for every embedded finder of every embedded family and
every input, each finding `(s, e, snip)` satisfies `s ≤ e < number_of_tokens`
and `snip` is a non-empty substring — both relative to the text the module
actually matched against, which is the caller's text for the
adherence-compliance, trial-registration and random-sequence-generation
families and the `normalize_text`-image of it for the healthcare-setting
family. -/
theorem C1_amended (t : List Char) (w bc : Nat) :
    ValidOn (adherence_compliance_finder.find_adherence_compliance_v1 t) t ∧
    ValidOn (adherence_compliance_finder.find_adherence_compliance_v2 t w) t ∧
    ValidOn (adherence_compliance_finder.find_adherence_compliance_v3 t bc) t ∧
    ValidOn (adherence_compliance_finder.find_adherence_compliance_v4 t w) t ∧
    ValidOn (adherence_compliance_finder.find_adherence_compliance_v5 t) t ∧
    ValidOn (trial_registration_finder.find_trial_registration_v1 t) t ∧
    ValidOn (trial_registration_finder.find_trial_registration_v2 t w) t ∧
    ValidOn (trial_registration_finder.find_trial_registration_v3 t bc) t ∧
    ValidOn (trial_registration_finder.find_trial_registration_v4 t w) t ∧
    ValidOn (trial_registration_finder.find_trial_registration_v5 t) t ∧
    ValidOn (random_sequence_generation_finder.find_random_sequence_generation_v1 t) t ∧
    ValidOn (random_sequence_generation_finder.find_random_sequence_generation_v2 t w) t ∧
    ValidOn (random_sequence_generation_finder.find_random_sequence_generation_v3 t bc) t ∧
    ValidOn (random_sequence_generation_finder.find_random_sequence_generation_v4 t w) t ∧
    ValidOn (random_sequence_generation_finder.find_random_sequence_generation_v5 t) t ∧
    ValidOn (healthcare_setting_finder.find_healthcare_setting_v1 t)
      (healthcare_setting_finder.normalize_text t) ∧
    ValidOn (healthcare_setting_finder.find_healthcare_setting_v2 t w)
      (healthcare_setting_finder.normalize_text t) ∧
    ValidOn (healthcare_setting_finder.find_healthcare_setting_v3 t bc)
      (healthcare_setting_finder.normalize_text t) ∧
    ValidOn (healthcare_setting_finder.find_healthcare_setting_v4 t w)
      (healthcare_setting_finder.normalize_text t) ∧
    ValidOn (healthcare_setting_finder.find_healthcare_setting_v5 t)
      (healthcare_setting_finder.normalize_text t) := by
  refine ⟨valid_adh_collect (by decide) t,
          valid_adh_v2 t w,
          valid_adh_v3 t bc,
          fun f hf => valid_adh_v2 t w f (sub_adh_v4_v2 t w hf),
          valid_adh_collect (by decide) t,
          valid_trial_collect (by decide) t,
          valid_trial_v2 t w,
          valid_trial_v3 t bc,
          fun f hf => valid_trial_v2 t w f (sub_trial_v4_v2 t w hf),
          valid_trial_collect (by decide) t,
          valid_rsg_collect (by decide) t,
          valid_rsg_v2 t w,
          valid_rsg_v3 t bc,
          fun f hf => valid_rsg_v2 t 80 f (sub_rsg_v4_v2 t w hf),
          valid_rsg_collect (by decide) t,
          valid_hc_collect (by decide) (healthcare_setting_finder.normalize_text t),
          valid_hc_v2 t w,
          valid_hc_v3 t bc,
          fun f hf => valid_hc_v2 t w f (sub_hc_v4_v2 t w hf),
          valid_hc_collect (by decide) (healthcare_setting_finder.normalize_text t)⟩

/-- Claim C1 witness: the Finding invariant instantiated at the canonical v5
finding of the adherence family. -/
theorem C1_amended_witness :
    ((0 : Nat), (6 : Nat), "Adherence was defined as PDC ≥ 0.8".data).1 ≤
        ((0 : Nat), (6 : Nat), "Adherence was defined as PDC ≥ 0.8".data).2.1 ∧
    ((0 : Nat), (6 : Nat), "Adherence was defined as PDC ≥ 0.8".data).2.1 <
        (tokenSpans adhT1).length ∧
    ((0 : Nat), (6 : Nat), "Adherence was defined as PDC ≥ 0.8".data).2.2 ≠ [] ∧
    ((0 : Nat), (6 : Nat), "Adherence was defined as PDC ≥ 0.8".data).2.2 <:+: adhT1 :=
  (C1_amended adhT1 4 400).2.2.2.2.1
    (0, 6, "Adherence was defined as PDC ≥ 0.8".data) (by decide)
